import Mathlib

/-!
# NachOS frame table (coremap), page-replacement policies and TLB refill

A shallow embedding of `code/lib/coremap.cc`, `code/lib/coremap.hh` and of the
page-fault path of `code/userprog/exception.cc` (`PageFaultHandler`,
`ReplaceTlbEntry`).

* C++ arrays are total maps from indices to values; only the indices the
  source touches are read or written.
* `unsigned` values are natural numbers, reduced modulo `2^32` wherever the
  source increments them.
* `AddressSpace*` is `Option SpaceId`; `none` is `nullptr`.
* A result the C++ leaves undefined (reading an uninitialised local, a null
  dereference, an out-of-bounds store) is `none`.
-/

namespace NachOS

/-- Modulus of the C++ `unsigned` type. -/
def UINT_MOD : Nat := 2 ^ 32

/-- Identity of an address space object; an `AddressSpace*` is an
`Option SpaceId`. -/
abbrev SpaceId := Nat

/-- Store `v` at index `k` of an array. -/
def store {α : Type} (a : Nat → α) (k : Nat) (v : α) : Nat → α :=
  fun i => if i = k then v else a i

/-! ## Collaborators declared outside `coremap.cc` -/

/-- Modelled from the spec: the page-table / translation-cache entry
(`TranslationEntry`, declared in the machine headers that `coremap.hh` pulls
in through `address_space.hh`): virtual page number, physical frame index,
validity, read-only, use and dirty flags, and the "resident in swap" flag. -/
structure TranslationEntry where
  virtualPage : Nat
  physicalPage : Nat
  valid : Bool
  readOnly : Bool
  use : Bool
  dirty : Bool
  isInSwap : Bool
deriving DecidableEq, Repr

/-- Modelled from the spec: the address-space collaborator (`AddressSpace`,
declared in `userprog/address_space.hh`). It owns the page table and the
inverse mapping from a frame index to the virtual page number currently mapped
there. -/
structure AddressSpace where
  numPages : Nat
  pageTable : Nat → TranslationEntry
  physIndex : Nat → Nat

namespace AddressSpace

/-- Modelled from the spec: "translate a frame index back to the virtual page
number currently mapped there". -/
def GetPhysicalPageIndex (sp : AddressSpace) (frame : Nat) : Nat :=
  sp.physIndex frame

/-- Modelled from the spec: "read a page-table entry by virtual page
number". -/
def GetPageTableEntry (sp : AddressSpace) (vpn : Nat) : TranslationEntry :=
  sp.pageTable vpn

/-- Modelled from the spec: "clear the use bit of a given page". -/
def SetNotUsed (sp : AddressSpace) (vpn : Nat) : AddressSpace :=
  { sp with pageTable := store sp.pageTable vpn { sp.pageTable vpn with use := false } }

end AddressSpace

/-- Modelled from the spec: the frame allocator (`Bitmap`, declared in
`lib/bitmap.hh`), "a fixed-size free/used bitmap over all physical frames"
offering find-first-free and clear(index). A set bit means "used". -/
structure Bitmap where
  numBits : Nat
  map : Nat → Bool

namespace Bitmap

/-- Modelled from the spec: a bitmap of `n` bits, all free. -/
def new (n : Nat) : Bitmap := { numBits := n, map := fun _ => false }

/-- Modelled from the spec: whether bit `i` is set (frame `i` is used). -/
def Test (b : Bitmap) (i : Nat) : Bool := b.map i

/-- Modelled from the spec: set bit `i`. -/
def Mark (b : Bitmap) (i : Nat) : Bitmap := { b with map := store b.map i true }

/-- Modelled from the spec: clear(index), free bit `i`. -/
def Clear (b : Bitmap) (i : Nat) : Bitmap := { b with map := store b.map i false }

/-- The lowest clear bit among `i, i+1, ..., i+k-1`, if any. -/
def firstClear (b : Bitmap) : Nat → Nat → Option Nat
  | _, 0 => none
  | i, k + 1 => if b.map i = false then some i else firstClear b (i + 1) k

/-- Modelled from the spec: find-first-free. Returns the lowest free bit and
marks it used (`ReplacePage` allocates a frame by this call alone); returns
`none` (the C++ `-1`) and changes nothing when every bit is used. -/
def Find (b : Bitmap) : Option Nat × Bitmap :=
  match b.firstClear 0 b.numBits with
  | some i => (some i, b.Mark i)
  | none => (none, b)

end Bitmap

/-! ## The frame table -/

/-- The private fields of `class Coremap` (coremap.hh). -/
structure Coremap where
  coreMapAdd : Nat → Option SpaceId
  numPhysPages : Nat
  victimIndex : Nat
  timers : Nat → Nat
  pages : Bitmap

/-- The kernel state the frame table works on: the global `coreMap` and the
address-space objects its owner pointers refer to. -/
structure Sys where
  coreMap : Coremap
  spaces : SpaceId → AddressSpace

/-- The page-replacement policy, fixed at build time by `PRPOLICY_CLOCK`,
`PRPOLICY_FIFO`, `PRPOLICY_LRU`, or none of them (random). -/
inductive Policy where
  | clock
  | fifo
  | lru
  | random
deriving DecidableEq, Repr

/-- Calls that `Coremap::ReplacePage` makes, in order. -/
inductive Call where
  | getVictim
  | swapPage (space : SpaceId) (vpn : Nat)
deriving DecidableEq, Repr

/-- The behaviour of `AddressSpace::SwapPage`, which `ReplacePage` calls and
`coremap.cc` does not define: called on address space `space` with a virtual
page number, it may change both the address spaces and the global frame
table. -/
abbrev SwapPageFn := SpaceId → Nat → Sys → Sys

namespace Coremap

/-- `Coremap::Coremap(physPages)`. `ASSERT(physPages > 0)` fails for zero.
`new AddressSpace*[n]` and `new unsigned[n]` leave the arrays uninitialised:
`owners0` and `timers0` are whatever the heap held. The cursor starts at 0
(its in-class initialiser) and the bitmap starts all free. -/
def new (physPages : Nat) (owners0 : Nat → Option SpaceId) (timers0 : Nat → Nat) :
    Option Coremap :=
  if physPages > 0 then
    some { coreMapAdd := owners0
           numPhysPages := physPages
           victimIndex := 0
           timers := timers0
           pages := Bitmap.new physPages }
  else none

/-- The loop of `Coremap::Clear`, after the iterations `i = 0 .. k-1`. -/
def clearLoop (cm : Coremap) (space : Option SpaceId) : Nat → Bitmap
  | 0 => cm.pages
  | k + 1 =>
    if cm.coreMapAdd k = space then (clearLoop cm space k).Clear k
    else clearLoop cm space k

/-- `Coremap::Clear(space)`. -/
def Clear (cm : Coremap) (space : Option SpaceId) : Coremap :=
  { cm with pages := clearLoop cm space cm.numPhysPages }

/-- `Coremap::ClearPageIndex(page)`. -/
def ClearPageIndex (cm : Coremap) (page : Nat) : Coremap :=
  { cm with pages := cm.pages.Clear page }

/-- The first loop of `Coremap::UpdateTimers`, after the iterations
`i = 0 .. k-1`: `timers[i]++` on an `unsigned`. -/
def timersLoop (timers : Nat → Nat) : Nat → (Nat → Nat)
  | 0 => timers
  | k + 1 => store (timersLoop timers k) k ((timersLoop timers k k + 1) % UINT_MOD)

/-- `Coremap::UpdateTimers(pageUsed)`. -/
def UpdateTimers (cm : Coremap) (pageUsed : Nat) : Coremap :=
  { cm with timers := store (timersLoop cm.timers cm.numPhysPages) pageUsed 0 }

/-- The scan of the LRU policy after the iterations `i = 0 .. k-1`: the pair
`(victim, m)`. `victim` is declared without an initialiser, so it is `none`
until the first assignment. -/
def lruLoop (timers : Nat → Nat) : Nat → Option Nat × Nat
  | 0 => (none, 0)
  | k + 1 =>
    if timers k > (lruLoop timers k).2 then (some k, timers k)
    else lruLoop timers k

end Coremap

/-- One sweep of the clock policy: a `for` loop of `Coremap::GetVictim` with
`k` iterations left. Each iteration advances the cursor (`victimIndex++`
then `% numPhysPages`), returns the frame under the cursor when it has no
owner or when `select` accepts the page-table entry of the page it backs, and
otherwise, in the second-chance sweep only, clears the use bit of a page that
has it set. The result is the returned frame, or `none` when the loop runs
out. -/
def clockSweep (select : TranslationEntry → Bool) (secondChance : Bool) :
    Nat → Sys → Option Nat × Sys
  | 0, st => (none, st)
  | k + 1, st =>
    let v := ((st.coreMap.victimIndex + 1) % UINT_MOD) % st.coreMap.numPhysPages
    let st1 : Sys := { st with coreMap := { st.coreMap with victimIndex := v } }
    match st1.coreMap.coreMapAdd v with
    | none => (some v, st1)
    | some space =>
      let vpn := (st1.spaces space).GetPhysicalPageIndex v
      let transEntry := (st1.spaces space).GetPageTableEntry vpn
      if select transEntry then (some v, st1)
      else if secondChance && transEntry.use then
        clockSweep select secondChance k
          { st1 with spaces := store st1.spaces space ((st1.spaces space).SetNotUsed vpn) }
      else clockSweep select secondChance k st1

/-- Pass 1 of the clock policy: `!use && !dirty`. -/
def clockPass1 (st : Sys) : Option Nat × Sys :=
  clockSweep (fun e => !e.use && !e.dirty) false st.coreMap.numPhysPages st

/-- Pass 2 of the clock policy: `!use && dirty`, clearing use bits. -/
def clockPass2 (st : Sys) : Option Nat × Sys :=
  clockSweep (fun e => !e.use && e.dirty) true st.coreMap.numPhysPages st

/-- Pass 3 of the clock policy: `!dirty`. -/
def clockPass3 (st : Sys) : Option Nat × Sys :=
  clockSweep (fun e => !e.dirty) false st.coreMap.numPhysPages st

/-- Pass 4 of the clock policy: `dirty`. -/
def clockPass4 (st : Sys) : Option Nat × Sys :=
  clockSweep (fun e => e.dirty) false st.coreMap.numPhysPages st

/-- The `PRPOLICY_CLOCK` body of `Coremap::GetVictim`: four sweeps, then the
fall-through `return victimIndex`. -/
def GetVictimClock (st : Sys) : Nat × Sys :=
  match clockPass1 st with
  | (some v, st1) => (v, st1)
  | (none, st1) =>
    match clockPass2 st1 with
    | (some v, st2) => (v, st2)
    | (none, st2) =>
      match clockPass3 st2 with
      | (some v, st3) => (v, st3)
      | (none, st3) =>
        match clockPass4 st3 with
        | (some v, st4) => (v, st4)
        | (none, st4) => (st4.coreMap.victimIndex, st4)

/-- `Coremap::GetVictim()` under each build-time policy. `rnd` is the value
the call to `rand()` yields (used by the random policy only). The result is
`none` when the C++ returns the uninitialised local `victim`. -/
def GetVictim (pol : Policy) (rnd : Nat) (st : Sys) : Option (Nat × Sys) :=
  match pol with
  | Policy.clock => some (GetVictimClock st)
  | Policy.fifo =>
    some (st.coreMap.victimIndex % st.coreMap.numPhysPages,
      { st with coreMap :=
          { st.coreMap with victimIndex := (st.coreMap.victimIndex + 1) % UINT_MOD } })
  | Policy.lru =>
    match (Coremap.lruLoop st.coreMap.timers st.coreMap.numPhysPages).1 with
    | some victim => some (victim, st)
    | none => none
  | Policy.random => some (rnd % st.coreMap.numPhysPages, st)

/-- `Coremap::ReplacePage(newSpace)` (the `SWAP` build). `swap` is the
behaviour of `AddressSpace::SwapPage`. The result is the returned frame, the
calls made, and the new state; it is `none` when the C++ is undefined: the
victim is indeterminate, the victim has a null owner (`space->SwapPage` on
`nullptr`), or the second `Find` still yields `-1` (`coreMapAdd[-1]`). -/
def ReplacePage (pol : Policy) (swap : SwapPageFn) (rnd : Nat)
    (newSpace : Option SpaceId) (st : Sys) : Option (Nat × List Call × Sys) :=
  match st.coreMap.pages.Find with
  | (some physIndex, bm) =>
    some (physIndex, [],
      { st with coreMap :=
          { st.coreMap with pages := bm, coreMapAdd := store st.coreMap.coreMapAdd physIndex newSpace } })
  | (none, _) =>
    match GetVictim pol rnd st with
    | none => none
    | some (victim, st1) =>
      match st1.coreMap.coreMapAdd victim with
      | none => none
      | some space =>
        let vpn := (st1.spaces space).GetPhysicalPageIndex victim
        let st2 := swap space vpn st1
        match st2.coreMap.pages.Find with
        | (none, _) => none
        | (some physIndex, bm) =>
          some (physIndex, [Call.getVictim, Call.swapPage space vpn],
            { st2 with coreMap :=
                { st2.coreMap with pages := bm,
                                   coreMapAdd := store st2.coreMap.coreMapAdd physIndex newSpace } })

/-! ## Reference collaborator and sample states -/

/-- Modelled from the spec: `AddressSpace::SwapPage` (defined in
`userprog/address_space.cc`), "persist a given page's content out of memory
(to swap) by virtual page number", after which the frame is marked free: the
page-table entry becomes invalid and swap-resident, and the frame that backed
it is released through `Coremap::ClearPageIndex`. -/
def AddressSpace.SwapPage : SwapPageFn := fun space vpn st =>
  let e := (st.spaces space).pageTable vpn
  { coreMap := st.coreMap.ClearPageIndex e.physicalPage
    spaces := store st.spaces space
      { st.spaces space with
        pageTable := store (st.spaces space).pageTable vpn
          { e with valid := false, isInSwap := true } } }

/-- A resident page-table entry of page `vpn` in frame `frame` with the given
use and dirty bits. -/
def residentEntry (vpn frame : Nat) (use dirty : Bool) : TranslationEntry :=
  { virtualPage := vpn, physicalPage := frame, valid := true, readOnly := false,
    use := use, dirty := dirty, isInSwap := false }

/-- An address space of `n` pages where page `i` sits in frame `i` with the
use and dirty bits `bits i`. -/
def identitySpace (n : Nat) (bits : Nat → Bool × Bool) : AddressSpace :=
  { numPages := n
    pageTable := fun vpn => residentEntry vpn vpn (bits vpn).1 (bits vpn).2
    physIndex := fun frame => frame }

/-- A frame table of `n` frames with the given owners, bitmap bits, cursor
and counters. -/
def sampleCoremap (n : Nat) (owners : Nat → Option SpaceId) (used : Nat → Bool)
    (cursor : Nat) (timers : Nat → Nat) : Coremap :=
  { coreMapAdd := owners, numPhysPages := n, victimIndex := cursor, timers := timers,
    pages := { numBits := n, map := used } }

/-- Read an array given as a list, with `d` past its end. -/
def ofList {α : Type} (l : List α) (d : α) : Nat → α := fun i => l.getD i d

/-- Two frame tables that differ at most in the sweep cursor. -/
def Coremap.sameFrames (a b : Coremap) : Prop :=
  a.coreMapAdd = b.coreMapAdd ∧ a.numPhysPages = b.numPhysPages ∧
    a.timers = b.timers ∧ a.pages = b.pages

/-- Two frames, both used and owned by address space 0, whose pages 0 and 1
have (use, dirty) = (1,1) and (0,0); cursor 0. -/
def fullTwoFrames : Sys :=
  { coreMap := sampleCoremap 2 (fun _ => some 0) (fun _ => true) 0 (fun _ => 0)
    spaces := fun _ => identitySpace 2 (ofList [(true, true), (false, false)] (false, false)) }

/-- The frame-table states reachable from construction by calls of
`ReplacePage` (on behalf of an address space), `Clear` and
`ClearPageIndex`. -/
inductive Reachable (pol : Policy) (swap : SwapPageFn) : Sys → Prop
  | construct (physPages : Nat) (owners0 : Nat → Option SpaceId) (timers0 : Nat → Nat)
      (cm : Coremap) (spaces : SpaceId → AddressSpace) :
      Coremap.new physPages owners0 timers0 = some cm → Reachable pol swap ⟨cm, spaces⟩
  | replacePage (st : Sys) (rnd : Nat) (s : SpaceId) (f : Nat) (calls : List Call) (st' : Sys) :
      Reachable pol swap st → ReplacePage pol swap rnd (some s) st = some (f, calls, st') →
      Reachable pol swap st'
  | clear (st : Sys) (space : Option SpaceId) :
      Reachable pol swap st → Reachable pol swap { st with coreMap := st.coreMap.Clear space }
  | clearPageIndex (st : Sys) (page : Nat) :
      Reachable pol swap st →
      Reachable pol swap { st with coreMap := st.coreMap.ClearPageIndex page }

/-- A `SwapPage` that leaves the owner table and the size of the frame table
and of its bitmap alone. -/
def SwapPageFn.keepsOwners (swap : SwapPageFn) : Prop :=
  ∀ space vpn st,
    (swap space vpn st).coreMap.coreMapAdd = st.coreMap.coreMapAdd ∧
    (swap space vpn st).coreMap.numPhysPages = st.coreMap.numPhysPages ∧
    (swap space vpn st).coreMap.pages.numBits = st.coreMap.pages.numBits

/-- A `SwapPage` whose only effect on the frame table is to free frames: it
keeps the owner entries, the frame count and the bitmap size, and sets no
bit. -/
def SwapPageFn.onlyFrees (swap : SwapPageFn) : Prop :=
  ∀ space vpn st,
    (swap space vpn st).coreMap.coreMapAdd = st.coreMap.coreMapAdd ∧
    (swap space vpn st).coreMap.numPhysPages = st.coreMap.numPhysPages ∧
    (swap space vpn st).coreMap.pages.numBits = st.coreMap.pages.numBits ∧
    ∀ i, (swap space vpn st).coreMap.pages.Test i = true → st.coreMap.pages.Test i = true

/-- Number of frames whose owner entry is not null. -/
def Coremap.ownedCount (cm : Coremap) : Nat :=
  ((List.range cm.numPhysPages).filter (fun i => (cm.coreMapAdd i).isSome)).length

/-- Number of frames the bitmap marks free. -/
def Coremap.freeCount (cm : Coremap) : Nat :=
  ((List.range cm.numPhysPages).filter (fun i => !cm.pages.Test i)).length

/-- One frame, acquired by address space 7 and then released by
`Clear`. -/
def releasedOneFrame : Sys :=
  { coreMap :=
      ({ coreMapAdd := store (fun _ => none) 0 (some 7), numPhysPages := 1, victimIndex := 0,
         timers := fun _ => 0, pages := (Bitmap.new 1).Mark 0 } : Coremap).Clear (some 7)
    spaces := fun _ => identitySpace 1 (fun _ => (false, false)) }

/-- The part of the free-iff-unowned invariant that the code keeps. -/
def Coremap.unownedFree (cm : Coremap) : Prop :=
  0 < cm.numPhysPages ∧ cm.pages.numBits = cm.numPhysPages ∧
    ∀ i, i < cm.numPhysPages → cm.coreMapAdd i = none → cm.pages.Test i = false

/-- Two frames, frame 0 acquired by address space 7 from a fresh table. -/
def acquiredOneOfTwo : Sys :=
  { coreMap :=
      { coreMapAdd := store (fun _ => none) 0 (some 7), numPhysPages := 2, victimIndex := 0,
        timers := fun _ => 0, pages := (Bitmap.new 2).Mark 0 }
    spaces := fun _ => identitySpace 2 (fun _ => (false, false)) }

/-- The cursor after one `victimIndex++; victimIndex = victimIndex % numPhysPages`. -/
def nextCursor (n c : Nat) : Nat := ((c + 1) % UINT_MOD) % n

/-- The page-table entry of the page that frame `i` backs, read through the
frame's owner as `GetVictim` does; `none` for a frame without owner. -/
def frameEntry (st : Sys) (i : Nat) : Option TranslationEntry :=
  match st.coreMap.coreMapAdd i with
  | none => none
  | some space =>
    some ((st.spaces space).GetPageTableEntry ((st.spaces space).GetPhysicalPageIndex i))

/-- Frame `i` has an owner and its page has neither the use nor the dirty bit
set. -/
def frameClean (st : Sys) (i : Nat) : Bool :=
  match frameEntry st i with
  | none => false
  | some e => !e.use && !e.dirty

/-- The state with the cursor moved to `v`. -/
def Sys.withCursor (st : Sys) (v : Nat) : Sys :=
  { st with coreMap := { st.coreMap with victimIndex := v } }

/-- The (use, dirty) bits of the page that frame `i` backs. -/
def frameBits (st : Sys) (i : Nat) : Option (Bool × Bool) :=
  match frameEntry st i with
  | none => none
  | some e => some (e.use, e.dirty)

/-- The state after `space->SetNotUsed(vpn)` on the owner of frame `v` for
the page that frame backs (the second-chance step of clock pass 2). -/
def Sys.secondChance (st : Sys) (v : Nat) : Sys :=
  match st.coreMap.coreMapAdd v with
  | none => st
  | some space =>
    { st with
      spaces := store st.spaces space
                  ((st.spaces space).SetNotUsed ((st.spaces space).GetPhysicalPageIndex v)) }

/-- The state in which the page that frame `i` backs has its use and dirty
bits set to the given values (the frame has been reused and touched). -/
def setFrameBits (st : Sys) (i : Nat) (use dirty : Bool) : Sys :=
  match st.coreMap.coreMapAdd i with
  | none => st
  | some space =>
    let vpn := (st.spaces space).GetPhysicalPageIndex i
    let entry : TranslationEntry :=
      { (st.spaces space).pageTable vpn with use := use, dirty := dirty }
    let sp : AddressSpace :=
      { st.spaces space with pageTable := store (st.spaces space).pageTable vpn entry }
    { st with spaces := store st.spaces space sp }

/-- The clock scenario: four frames owned by address space 0, whose pages
have (use, dirty) = (1,0), (0,0), (1,1), (0,1); cursor 0. -/
def clockScenario : Sys :=
  { coreMap := sampleCoremap 4 (fun _ => some 0) (fun _ => true) 0 (fun _ => 0)
    spaces := fun _ => identitySpace 4
      (ofList [(true, false), (false, false), (true, true), (false, true)] (false, false)) }

/-- The clock scenario after its first `GetVictim` call, with the returned
frame 1 reused and its bits set to (1,0). -/
def clockScenarioReused : Sys :=
  match GetVictim Policy.clock 0 clockScenario with
  | some (v, st1) => setFrameBits st1 v true false
  | none => clockScenario

/-- Two frames owned by address space 0, both pages with use and dirty
clear; the cursor is `c`. -/
def allCleanTwo (c : Nat) : Sys :=
  { coreMap := sampleCoremap 2 (fun _ => some 0) (fun _ => true) c (fun _ => 0)
    spaces := fun _ => identitySpace 2 (fun _ => (false, false)) }

/-- Three frames owned by address space 0, all pages with use and dirty
clear; the cursor is `c`. -/
def allCleanThree (c : Nat) : Sys :=
  { coreMap := sampleCoremap 3 (fun _ => some 0) (fun _ => true) c (fun _ => 0)
    spaces := fun _ => identitySpace 3 (fun _ => (false, false)) }

/-- The result of call number `k + 1` in a run of consecutive `GetVictim`
calls. -/
def GetVictimNth (pol : Policy) (rnd : Nat) : Nat → Sys → Option (Nat × Sys)
  | 0, st => GetVictim pol rnd st
  | k + 1, st =>
    match GetVictim pol rnd st with
    | none => none
    | some (_, st1) => GetVictimNth pol rnd k st1

/-- A freshly constructed table of three frames (the arrays happen to be
zero-filled), with no address space of interest. -/
def freshThree : Sys :=
  { coreMap := { coreMapAdd := fun _ => none, numPhysPages := 3, victimIndex := 0,
                 timers := fun _ => 0, pages := Bitmap.new 3 }
    spaces := fun _ => identitySpace 0 (fun _ => (false, false)) }

/-! ## The TLB refill controller (`userprog/exception.cc`) -/

/-- The kernel state `PageFaultHandler` works on: the frame table and the
address spaces, the TLB of the MMU (`machine->GetMMU()->tlb`), the function's
static round-robin cursor `tlbSelection`, the address space of the running
thread (`currentThread->space`, `none` for a null pointer), and the faulting
address held in register `BAD_VADDR_REG`. -/
structure Kernel where
  sys : Sys
  tlb : Nat → TranslationEntry
  tlbSelection : Nat
  currentSpace : Option SpaceId
  badVAddr : Nat

/-- The `AddressSpace` methods the fault path calls and `exception.cc` does
not define. `SwapPage` is the one `Coremap::ReplacePage` calls, acting on the
frame table and the address spaces; `LoadPage` and `LoadFromSwap` are called
on a space with a virtual page number and a frame and return the entry to
install; `SyncTlbEntry` is called on a space with a TLB slot index. The last
three may change any part of the kernel state, the TLB included. -/
structure AddressSpaceOps where
  SwapPage : SwapPageFn
  LoadPage : SpaceId → Nat → Nat → Kernel → TranslationEntry × Kernel
  LoadFromSwap : SpaceId → Nat → Nat → Kernel → TranslationEntry × Kernel
  SyncTlbEntry : SpaceId → Nat → Kernel → Kernel

/-- What the fault path does, in order: the calls it makes to the frame table
and to the faulting address space, and its store into a TLB slot. -/
inductive FaultCall where
  | replacePage (space : SpaceId) (frame : Nat)
  | loadPage (space : SpaceId) (vpn frame : Nat)
  | loadFromSwap (space : SpaceId) (vpn frame : Nat)
  | syncTlbEntry (space : SpaceId) (index : Nat)
  | writeTlb (slot : Nat) (entry : TranslationEntry)
deriving DecidableEq, Repr

/-- The scan of `ReplaceTlbEntry` over the slots `i, i+1, ..., i+k-1`: the
first slot whose entry is not valid, if any. -/
def firstInvalidSlot (tlb : Nat → TranslationEntry) : Nat → Nat → Option Nat
  | _, 0 => none
  | i, k + 1 => if (tlb i).valid = false then some i else firstInvalidSlot tlb (i + 1) k

/-- `ReplaceTlbEntry(index, space, entry)`. `TLB_SIZE` is the macro of the
machine headers. The result lists what was done, in order. -/
def ReplaceTlbEntry (ops : AddressSpaceOps) (TLB_SIZE : Nat) (index : Nat) (space : SpaceId)
    (entry : TranslationEntry) (k : Kernel) : List FaultCall × Kernel :=
  match firstInvalidSlot k.tlb 0 TLB_SIZE with
  | some i => ([FaultCall.writeTlb i entry], { k with tlb := store k.tlb i entry })
  | none =>
    let k1 := ops.SyncTlbEntry space index k
    ([FaultCall.syncTlbEntry space index, FaultCall.writeTlb index entry],
      { k1 with tlb := store k1.tlb index entry })

/-- `PageFaultHandler(et)` in the `USE_TLB`, `DEMAND_LOADING`, `SWAP` build.
`TLB_SIZE` and `PAGE_SIZE` are the macros of the machine headers, `pol` and
`rnd` are as in `GetVictim`. The result lists what was done, in order, and
gives the new state; it is `none` when the C++ is undefined (the running
thread has no address space, or `ReplacePage` is undefined). -/
def PageFaultHandler (pol : Policy) (ops : AddressSpaceOps) (rnd : Nat)
    (TLB_SIZE PAGE_SIZE : Nat) (k : Kernel) : Option (List FaultCall × Kernel) :=
  match k.currentSpace with
  | none => none
  | some space =>
    let vpn := k.badVAddr / PAGE_SIZE
    let index := k.tlbSelection % TLB_SIZE
    let k0 : Kernel := { k with tlbSelection := (k.tlbSelection + 1) % UINT_MOD }
    if ((k0.sys.spaces space).GetPageTableEntry vpn).valid = false then
      match ReplacePage pol ops.SwapPage rnd (some space) k0.sys with
      | none => none
      | some (frame, _, sys1) =>
        let k1 : Kernel := { k0 with sys := sys1 }
        if ((k1.sys.spaces space).GetPageTableEntry vpn).isInSwap = true then
          let loaded := ops.LoadFromSwap space vpn frame k1
          let done := ReplaceTlbEntry ops TLB_SIZE index space loaded.1 loaded.2
          some (FaultCall.replacePage space frame :: FaultCall.loadFromSwap space vpn frame
            :: done.1, done.2)
        else
          let loaded := ops.LoadPage space vpn frame k1
          let done := ReplaceTlbEntry ops TLB_SIZE index space loaded.1 loaded.2
          some (FaultCall.replacePage space frame :: FaultCall.loadPage space vpn frame
            :: done.1, done.2)
    else
      let done := ReplaceTlbEntry ops TLB_SIZE index space
        ((k0.sys.spaces space).GetPageTableEntry vpn) k0
      some done

/-- Collaborators that leave the TLB alone: neither loader nor `SyncTlbEntry`
stores into a TLB slot. -/
def AddressSpaceOps.keepTlb (ops : AddressSpaceOps) : Prop :=
  (∀ space vpn frame k, (ops.LoadPage space vpn frame k).2.tlb = k.tlb) ∧
  (∀ space vpn frame k, (ops.LoadFromSwap space vpn frame k).2.tlb = k.tlb) ∧
  (∀ space index k, (ops.SyncTlbEntry space index k).tlb = k.tlb)

/-- The slot `ReplaceTlbEntry` stores into, read off the TLB it finds: the
first invalid slot, else `index`. -/
def chosenSlot (tlb : Nat → TranslationEntry) (TLB_SIZE index : Nat) : Nat :=
  match firstInvalidSlot tlb 0 TLB_SIZE with
  | some i => i
  | none => index

/-- Modelled from the spec: `AddressSpace::LoadPage`, "demand-load the page's
content from its original backing segment" into the given frame, "receiving
back a fresh entry": the page-table entry of the page becomes a valid, clean
entry for that frame, the inverse map records the page for the frame, and the
entry is returned. -/
def AddressSpace.LoadPage (space : SpaceId) (vpn frame : Nat) (k : Kernel) :
    TranslationEntry × Kernel :=
  let sp := k.sys.spaces space
  let entry := residentEntry vpn frame false false
  let sp1 : AddressSpace :=
    { sp with pageTable := store sp.pageTable vpn entry
              physIndex := store sp.physIndex frame vpn }
  (entry, { k with sys := { k.sys with spaces := store k.sys.spaces space sp1 } })

/-- Modelled from the spec: `AddressSpace::LoadFromSwap`, "restore the page's
content from swap into that frame, receiving back a fresh entry": as
`LoadPage`, and the page stops being swap-resident. -/
def AddressSpace.LoadFromSwap (space : SpaceId) (vpn frame : Nat) (k : Kernel) :
    TranslationEntry × Kernel :=
  AddressSpace.LoadPage space vpn frame k

/-- Modelled from the spec: `AddressSpace::SyncTlbEntry`, "synchronize a cache
slot's bits back into the page table before it is overwritten": the use and
dirty bits of the slot's entry are copied to the page-table entry of the page
it translates. -/
def AddressSpace.SyncTlbEntry (space : SpaceId) (index : Nat) (k : Kernel) : Kernel :=
  let sp := k.sys.spaces space
  let cached := k.tlb index
  let entry : TranslationEntry :=
    { sp.pageTable cached.virtualPage with use := cached.use, dirty := cached.dirty }
  let sp1 : AddressSpace := { sp with pageTable := store sp.pageTable cached.virtualPage entry }
  { k with sys := { k.sys with spaces := store k.sys.spaces space sp1 } }

/-- The reference collaborators. -/
def referenceOps : AddressSpaceOps :=
  { SwapPage := AddressSpace.SwapPage
    LoadPage := AddressSpace.LoadPage
    LoadFromSwap := AddressSpace.LoadFromSwap
    SyncTlbEntry := AddressSpace.SyncTlbEntry }

/-- An entry that is not valid and not swap-resident (a cleared slot). -/
def invalidEntry : TranslationEntry :=
  { virtualPage := 0, physicalPage := 0, valid := false, readOnly := false,
    use := false, dirty := false, isInSwap := false }

/-- Whether an event is a call to the frame table or to a loader. -/
def FaultCall.isAcquire : FaultCall → Bool
  | FaultCall.replacePage _ _ => true
  | FaultCall.loadPage _ _ _ => true
  | FaultCall.loadFromSwap _ _ _ => true
  | _ => false

/-- Whether an event is a call to `SyncTlbEntry`. -/
def FaultCall.isSync : FaultCall → Bool
  | FaultCall.syncTlbEntry _ _ => true
  | _ => false

/-- Whether an event is a store into a TLB slot. -/
def FaultCall.isWrite : FaultCall → Bool
  | FaultCall.writeTlb _ _ => true
  | _ => false

/-- An address space of `n` pages none of which is resident or in swap (no
page has been touched yet). -/
def untouchedSpace (n : Nat) : AddressSpace :=
  { numPages := n
    pageTable := fun vpn => { invalidEntry with virtualPage := vpn }
    physIndex := fun _ => 0 }

/-- The refill scenario: all TLB slots invalid, the running address space 0
has eight resident pages, and the faulting address lies in page 7 (pages of
128 bytes). -/
def refillKernel : Kernel :=
  { sys := { coreMap := sampleCoremap 8 (fun _ => some 0) (fun _ => true) 0 (fun _ => 0)
             spaces := fun _ => identitySpace 8 (fun _ => (false, false)) }
    tlb := fun _ => invalidEntry
    tlbSelection := 0
    currentSpace := some 0
    badVAddr := 7 * 128 + 5 }

/-- The demand-load scenario: all TLB slots invalid, four free frames, the
running address space 0 has eight untouched pages, and the faulting address
lies in page 3 (pages of 128 bytes). -/
def demandKernel : Kernel :=
  { sys := { coreMap := sampleCoremap 4 (fun _ => none) (fun _ => false) 0 (fun _ => 0)
             spaces := fun _ => untouchedSpace 8 }
    tlb := fun _ => invalidEntry
    tlbSelection := 0
    currentSpace := some 0
    badVAddr := 3 * 128 }

/-- A full TLB: slot `i` holds a valid, used and dirty entry for page `i`; the
round-robin cursor is 6, the running address space 0 has eight resident pages
and the faulting address lies in page 5 (pages of 128 bytes). -/
def fullTlbKernel : Kernel :=
  { sys := { coreMap := sampleCoremap 8 (fun _ => some 0) (fun _ => true) 0 (fun _ => 0)
             spaces := fun _ => identitySpace 8 (fun _ => (false, false)) }
    tlb := fun i => residentEntry i i true true
    tlbSelection := 6
    currentSpace := some 0
    badVAddr := 5 * 128 }

/-- An out-of-bounds fault: the running address space 0 has two pages, the
faulting address lies in page 5 (pages of 128 bytes), and the memory past the
end of its page table reads as entries that are neither valid nor in swap.
Four free frames, all TLB slots invalid. -/
def outOfBoundsKernel : Kernel :=
  { sys := { coreMap := sampleCoremap 4 (fun _ => none) (fun _ => false) 0 (fun _ => 0)
             spaces := fun _ => untouchedSpace 2 }
    tlb := fun _ => invalidEntry
    tlbSelection := 0
    currentSpace := some 0
    badVAddr := 5 * 128 }

/-- The number of cursor advances (loop iterations) a sweep of the clock
policy makes: the recursion of `clockSweep`, counting one per iteration. -/
def clockSweepAdvances (select : TranslationEntry → Bool) (secondChance : Bool) :
    Nat → Sys → Nat
  | 0, _ => 0
  | k + 1, st =>
    let v := ((st.coreMap.victimIndex + 1) % UINT_MOD) % st.coreMap.numPhysPages
    let st1 : Sys := { st with coreMap := { st.coreMap with victimIndex := v } }
    match st1.coreMap.coreMapAdd v with
    | none => 1
    | some space =>
      let vpn := (st1.spaces space).GetPhysicalPageIndex v
      let transEntry := (st1.spaces space).GetPageTableEntry vpn
      if select transEntry then 1
      else if secondChance && transEntry.use then
        1 + clockSweepAdvances select secondChance k
          { st1 with spaces := store st1.spaces space ((st1.spaces space).SetNotUsed vpn) }
      else 1 + clockSweepAdvances select secondChance k st1

/-- The bookkeeping of one run of the clock body of `GetVictim`: how many
times the cursor advanced, and which `return` was taken (1 to 4 for the
passes, 5 for the fall-through after pass 4). -/
def GetVictimClockRun (st : Sys) : Nat × Nat :=
  match clockPass1 st with
  | (some _, _) =>
    (clockSweepAdvances (fun e => !e.use && !e.dirty) false st.coreMap.numPhysPages st, 1)
  | (none, st1) =>
    match clockPass2 st1 with
    | (some _, _) =>
      (clockSweepAdvances (fun e => !e.use && !e.dirty) false st.coreMap.numPhysPages st
        + clockSweepAdvances (fun e => !e.use && e.dirty) true st1.coreMap.numPhysPages st1, 2)
    | (none, st2) =>
      match clockPass3 st2 with
      | (some _, _) =>
        (clockSweepAdvances (fun e => !e.use && !e.dirty) false st.coreMap.numPhysPages st
          + clockSweepAdvances (fun e => !e.use && e.dirty) true st1.coreMap.numPhysPages st1
          + clockSweepAdvances (fun e => !e.dirty) false st2.coreMap.numPhysPages st2, 3)
      | (none, st3) =>
        match clockPass4 st3 with
        | (some _, _) =>
          (clockSweepAdvances (fun e => !e.use && !e.dirty) false st.coreMap.numPhysPages st
            + clockSweepAdvances (fun e => !e.use && e.dirty) true st1.coreMap.numPhysPages st1
            + clockSweepAdvances (fun e => !e.dirty) false st2.coreMap.numPhysPages st2
            + clockSweepAdvances (fun e => e.dirty) false st3.coreMap.numPhysPages st3, 4)
        | (none, _) =>
          (clockSweepAdvances (fun e => !e.use && !e.dirty) false st.coreMap.numPhysPages st
            + clockSweepAdvances (fun e => !e.use && e.dirty) true st1.coreMap.numPhysPages st1
            + clockSweepAdvances (fun e => !e.dirty) false st2.coreMap.numPhysPages st2
            + clockSweepAdvances (fun e => e.dirty) false st3.coreMap.numPhysPages st3, 5)

/-- Four frames owned by address space 0 whose pages all have use and dirty
set; cursor 2. -/
def allBusyFour : Sys :=
  { coreMap := sampleCoremap 4 (fun _ => some 0) (fun _ => true) 2 (fun _ => 0)
    spaces := fun _ => identitySpace 4 (fun _ => (true, true)) }

/-! ## Facts about the bitmap -/

theorem store_same {α : Type} (a : Nat → α) (k : Nat) (v : α) : store a k v k = v := by
  simp [store]

theorem store_other {α : Type} (a : Nat → α) (k i : Nat) (v : α) (h : i ≠ k) :
    store a k v i = a i := by
  simp [store, h]

theorem Bitmap.firstClear_some (b : Bitmap) (k : Nat) :
    ∀ i j, b.firstClear i k = some j →
      i ≤ j ∧ j < i + k ∧ b.map j = false ∧ ∀ l, i ≤ l → l < j → b.map l = true := by
  induction k with
  | zero => intro i j h; simp [Bitmap.firstClear] at h
  | succ k ih =>
    intro i j h
    unfold Bitmap.firstClear at h
    by_cases hb : b.map i = false
    · rw [if_pos hb] at h
      have hij : i = j := by simpa using h
      subst hij
      exact ⟨le_refl _, by omega, hb, fun l h1 h2 => by omega⟩
    · rw [if_neg hb] at h
      obtain ⟨h1, h2, h3, h4⟩ := ih (i + 1) j h
      refine ⟨by omega, by omega, h3, ?_⟩
      intro l hl1 hl2
      by_cases hli : l = i
      · subst hli; simpa using hb
      · exact h4 l (by omega) hl2

theorem Bitmap.firstClear_none (b : Bitmap) (k : Nat) :
    ∀ i, b.firstClear i k = none → ∀ l, i ≤ l → l < i + k → b.map l = true := by
  induction k with
  | zero => intro i _ l h1 h2; omega
  | succ k ih =>
    intro i h l h1 h2
    unfold Bitmap.firstClear at h
    by_cases hb : b.map i = false
    · rw [if_pos hb] at h; simp at h
    · rw [if_neg hb] at h
      by_cases hli : l = i
      · subst hli; simpa using hb
      · exact ih (i + 1) h l (by omega) (by omega)

theorem Bitmap.firstClear_isSome (b : Bitmap) (i : Nat) (hi : i < b.numBits)
    (hfree : b.map i = false) : ∃ f, b.firstClear 0 b.numBits = some f := by
  cases h : b.firstClear 0 b.numBits with
  | some f => exact ⟨f, rfl⟩
  | none =>
    have := Bitmap.firstClear_none b b.numBits 0 h i (Nat.zero_le _) (by omega)
    rw [this] at hfree
    exact absurd hfree (by decide)

theorem Bitmap.Find_some (b : Bitmap) (f : Nat) (bm : Bitmap) (h : b.Find = (some f, bm)) :
    b.firstClear 0 b.numBits = some f ∧ bm = b.Mark f := by
  unfold Bitmap.Find at h
  cases hc : b.firstClear 0 b.numBits with
  | some i =>
    rw [hc] at h
    simp only [Prod.mk.injEq, Option.some.injEq] at h
    obtain ⟨h1, h2⟩ := h
    subst h1
    exact ⟨rfl, h2.symm⟩
  | none =>
    rw [hc] at h
    simp at h

theorem Bitmap.Find_none (b : Bitmap) (h : b.Find.1 = none) :
    b.firstClear 0 b.numBits = none := by
  unfold Bitmap.Find at h
  cases hc : b.firstClear 0 b.numBits with
  | some i => rw [hc] at h; simp at h
  | none => rfl

theorem Bitmap.Find_of_firstClear (b : Bitmap) (f : Nat)
    (h : b.firstClear 0 b.numBits = some f) : b.Find = (some f, b.Mark f) := by
  unfold Bitmap.Find
  rw [h]

/-! ## C1: free frames win over eviction -/

/-- C1 (free-first). Whenever the bitmap has a free frame, `ReplacePage`
returns a frame `f` without calling `GetVictim` or `SwapPage` (the list of
calls is empty): `f` is what `Find` reports, which is the lowest free frame;
the sweep cursor, the recency counters and every address space (hence every
page-table use and dirty bit) are left as they were. -/
theorem ReplacePage_free_first (pol : Policy) (swap : SwapPageFn) (rnd : Nat)
    (s : Option SpaceId) (st : Sys) (i : Nat)
    (hi : i < st.coreMap.pages.numBits) (hfree : st.coreMap.pages.Test i = false) :
    ∃ f st', ReplacePage pol swap rnd s st = some (f, [], st') ∧
      st.coreMap.pages.Find.1 = some f ∧
      f < st.coreMap.pages.numBits ∧
      st.coreMap.pages.Test f = false ∧
      (∀ j, j < f → st.coreMap.pages.Test j = true) ∧
      st'.coreMap.victimIndex = st.coreMap.victimIndex ∧
      st'.coreMap.timers = st.coreMap.timers ∧
      st'.spaces = st.spaces := by
  obtain ⟨f, hf⟩ := Bitmap.firstClear_isSome st.coreMap.pages i hi hfree
  have hFind := Bitmap.Find_of_firstClear st.coreMap.pages f hf
  obtain ⟨-, h2, h3, h4⟩ := Bitmap.firstClear_some st.coreMap.pages _ 0 f hf
  refine ⟨f, { st with coreMap :=
      { st.coreMap with pages := st.coreMap.pages.Mark f,
                        coreMapAdd := store st.coreMap.coreMapAdd f s } },
    ?_, ?_, by omega, h3, fun j hj => h4 j (Nat.zero_le _) hj, rfl, rfl, rfl⟩
  · unfold ReplacePage
    rw [hFind]
  · rw [hFind]

/-- Witness for C1: three frames, frame 0 used and frames 1 and 2 free; the
request is served from the bitmap. -/
theorem ReplacePage_free_first_witness :
    (sampleCoremap 3 (ofList [some 4] none) (ofList [true] false) 0 (fun _ => 0)).pages.Test 1 = false ∧
    ∃ f st', ReplacePage Policy.clock AddressSpace.SwapPage 0 (some 5)
        ⟨sampleCoremap 3 (ofList [some 4] none) (ofList [true] false) 0 (fun _ => 0),
          fun _ => identitySpace 3 (fun _ => (true, true))⟩ = some (f, [], st') ∧
      (sampleCoremap 3 (ofList [some 4] none) (ofList [true] false) 0 (fun _ => 0)).pages.Find.1
        = some f ∧
      f < 3 ∧
      (sampleCoremap 3 (ofList [some 4] none) (ofList [true] false) 0 (fun _ => 0)).pages.Test f
        = false ∧
      (∀ j, j < f →
        (sampleCoremap 3 (ofList [some 4] none) (ofList [true] false) 0 (fun _ => 0)).pages.Test j
          = true) ∧
      st'.coreMap.victimIndex = 0 ∧
      st'.coreMap.timers = (fun _ => 0) ∧
      st'.spaces = fun _ => identitySpace 3 (fun _ => (true, true)) :=
  ⟨by decide,
    ReplacePage_free_first Policy.clock AddressSpace.SwapPage 0 (some 5)
      ⟨sampleCoremap 3 (ofList [some 4] none) (ofList [true] false) 0 (fun _ => 0),
        fun _ => identitySpace 3 (fun _ => (true, true))⟩ 1 (by decide) (by decide)⟩

/-! ## C4: releasing every frame of an address space -/

theorem Coremap.clearLoop_numBits (cm : Coremap) (s : Option SpaceId) (k : Nat) :
    (cm.clearLoop s k).numBits = cm.pages.numBits := by
  induction k with
  | zero => rfl
  | succ k ih =>
    unfold Coremap.clearLoop
    split
    · simpa [Bitmap.Clear] using ih
    · exact ih

theorem Coremap.clearLoop_map (cm : Coremap) (s : Option SpaceId) (k i : Nat) :
    (cm.clearLoop s k).map i =
      if i < k ∧ cm.coreMapAdd i = s then false else cm.pages.map i := by
  induction k with
  | zero => simp [Coremap.clearLoop]
  | succ k ih =>
    unfold Coremap.clearLoop
    by_cases hk : cm.coreMapAdd k = s
    · rw [if_pos hk]
      by_cases hik : i = k
      · subst hik
        simp [Bitmap.Clear, store, hk]
      · have h : (i < k + 1 ∧ cm.coreMapAdd i = s) ↔ (i < k ∧ cm.coreMapAdd i = s) := by
          constructor <;> rintro ⟨a, b⟩ <;> exact ⟨by omega, b⟩
        simp only [Bitmap.Clear, store, hik, if_false, ih, h]
    · rw [if_neg hk, ih]
      by_cases hik : i = k
      · subst hik
        simp [hk]
      · have h : (i < k + 1 ∧ cm.coreMapAdd i = s) ↔ (i < k ∧ cm.coreMapAdd i = s) := by
          constructor <;> rintro ⟨a, b⟩ <;> exact ⟨by omega, b⟩
        simp only [h]

/-- C4 (ReleaseAll). After `Clear(s)` every frame below `numPhysPages` whose
owner entry is `s` is free in the bitmap, the bit of every frame whose owner
entry is not `s` is what it was, and the cursor, the recency counters, the
owner entries and the frame count are untouched. -/
theorem Clear_releases_all (cm : Coremap) (s : Option SpaceId) :
    (∀ i, i < cm.numPhysPages → cm.coreMapAdd i = s → (cm.Clear s).pages.Test i = false) ∧
    (∀ i, cm.coreMapAdd i ≠ s → (cm.Clear s).pages.Test i = cm.pages.Test i) ∧
    (cm.Clear s).victimIndex = cm.victimIndex ∧
    (cm.Clear s).timers = cm.timers ∧
    (cm.Clear s).coreMapAdd = cm.coreMapAdd ∧
    (cm.Clear s).numPhysPages = cm.numPhysPages ∧
    (cm.Clear s).pages.numBits = cm.pages.numBits := by
  refine ⟨?_, ?_, rfl, rfl, rfl, rfl, Coremap.clearLoop_numBits cm s _⟩
  · intro i hi hs
    simp [Coremap.Clear, Bitmap.Test, Coremap.clearLoop_map, hi, hs]
  · intro i hs
    simp [Coremap.Clear, Bitmap.Test, Coremap.clearLoop_map, hs]

/-! ## C5: recency counters -/

theorem Coremap.timersLoop_spec (timers : Nat → Nat) (k i : Nat) :
    Coremap.timersLoop timers k i = if i < k then (timers i + 1) % UINT_MOD else timers i := by
  induction k with
  | zero => simp [Coremap.timersLoop]
  | succ k ih =>
    unfold Coremap.timersLoop
    by_cases hik : i = k
    · subst hik
      rw [store_same, ih]
      simp
    · rw [store_other _ _ _ _ hik, ih]
      by_cases h : i < k
      · have h2 : i < k + 1 := by omega
        simp [h, h2]
      · have h2 : ¬ i < k + 1 := by omega
        simp [h, h2]

/-- C5 (NotifyAccess). After `UpdateTimers(k)` with `k < numPhysPages` the
counter of frame `k` is 0 and the counter of every other frame is its old
value plus one modulo `2^32`; owners, bitmap, cursor and frame count are
untouched. -/
theorem UpdateTimers_spec (cm : Coremap) (k : Nat) (hk : k < cm.numPhysPages) :
    (cm.UpdateTimers k).timers k = 0 ∧
    (∀ i, i < cm.numPhysPages → i ≠ k →
      (cm.UpdateTimers k).timers i = (cm.timers i + 1) % 2 ^ 32) ∧
    (cm.UpdateTimers k).coreMapAdd = cm.coreMapAdd ∧
    (cm.UpdateTimers k).pages = cm.pages ∧
    (cm.UpdateTimers k).victimIndex = cm.victimIndex ∧
    (cm.UpdateTimers k).numPhysPages = cm.numPhysPages := by
  have _ := hk
  refine ⟨?_, ?_, rfl, rfl, rfl, rfl⟩
  · simp [Coremap.UpdateTimers, store]
  · intro i hi hik
    simp [Coremap.UpdateTimers, store, hik, Coremap.timersLoop_spec, hi, UINT_MOD]

/-- Witness for C5: three frames with counters 7, 2^32 - 1 and 0, access to
frame 2. -/
theorem UpdateTimers_spec_witness :
    2 < (sampleCoremap 3 (fun _ => none) (fun _ => false) 0
          (ofList [7, 4294967295, 0] 0)).numPhysPages ∧
    ((sampleCoremap 3 (fun _ => none) (fun _ => false) 0
          (ofList [7, 4294967295, 0] 0)).UpdateTimers 2).timers 0 = 8 ∧
    ((sampleCoremap 3 (fun _ => none) (fun _ => false) 0
          (ofList [7, 4294967295, 0] 0)).UpdateTimers 2).timers 1 = 0 ∧
    ((sampleCoremap 3 (fun _ => none) (fun _ => false) 0
          (ofList [7, 4294967295, 0] 0)).UpdateTimers 2).timers 2 = 0 :=
  ⟨by decide,
    ((UpdateTimers_spec (sampleCoremap 3 (fun _ => none) (fun _ => false) 0
        (ofList [7, 4294967295, 0] 0)) 2 (by decide)).2.1 0 (by decide) (by decide)).trans
      (by decide),
    by decide,
    (UpdateTimers_spec (sampleCoremap 3 (fun _ => none) (fun _ => false) 0
        (ofList [7, 4294967295, 0] 0)) 2 (by decide)).1⟩

/-! ## What every policy leaves alone -/

theorem Coremap.sameFrames_refl (a : Coremap) : a.sameFrames a := ⟨rfl, rfl, rfl, rfl⟩

theorem Coremap.sameFrames.tr {a b c : Coremap} (h1 : a.sameFrames b) (h2 : b.sameFrames c) :
    a.sameFrames c :=
  ⟨h1.1.trans h2.1, h1.2.1.trans h2.2.1, h1.2.2.1.trans h2.2.2.1, h1.2.2.2.trans h2.2.2.2⟩

theorem clockSweep_frame (select : TranslationEntry → Bool) (sc : Bool) :
    ∀ k st, (clockSweep select sc k st).2.coreMap.sameFrames st.coreMap := by
  intro k
  induction k with
  | zero => intro st; exact Coremap.sameFrames_refl _
  | succ k ih =>
    intro st
    simp only [clockSweep]
    split
    · exact ⟨rfl, rfl, rfl, rfl⟩
    · split
      · exact ⟨rfl, rfl, rfl, rfl⟩
      · split
        · exact Coremap.sameFrames.tr (ih _) ⟨rfl, rfl, rfl, rfl⟩
        · exact Coremap.sameFrames.tr (ih _) ⟨rfl, rfl, rfl, rfl⟩

theorem clockSweep_cursor (select : TranslationEntry → Bool) (sc : Bool) :
    ∀ k st, 0 < st.coreMap.numPhysPages →
      (∀ v, (clockSweep select sc k st).1 = some v →
        v < st.coreMap.numPhysPages ∧ (clockSweep select sc k st).2.coreMap.victimIndex = v) ∧
      (0 < k ∨ st.coreMap.victimIndex < st.coreMap.numPhysPages →
        (clockSweep select sc k st).2.coreMap.victimIndex < st.coreMap.numPhysPages) := by
  intro k
  induction k with
  | zero => intro st _; simp [clockSweep]
  | succ k ih =>
    intro st hn
    have hv : ((st.coreMap.victimIndex + 1) % UINT_MOD) % st.coreMap.numPhysPages
        < st.coreMap.numPhysPages := Nat.mod_lt _ hn
    simp only [clockSweep]
    split
    · simp [hv]
    · split
      · simp [hv]
      · split
        · rename_i space _ _ _
          have := ih { coreMap := { st.coreMap with victimIndex := ((st.coreMap.victimIndex + 1) % UINT_MOD) % st.coreMap.numPhysPages }, spaces := store st.spaces space ((st.spaces space).SetNotUsed ((st.spaces space).GetPhysicalPageIndex (((st.coreMap.victimIndex + 1) % UINT_MOD) % st.coreMap.numPhysPages))) } hn
          exact ⟨this.1, fun _ => this.2 (Or.inr hv)⟩
        · have := ih { st with coreMap := { st.coreMap with victimIndex := ((st.coreMap.victimIndex + 1) % UINT_MOD) % st.coreMap.numPhysPages } } hn
          exact ⟨this.1, fun _ => this.2 (Or.inr hv)⟩

/-- What one pass of the clock policy guarantees. -/
theorem clockPass_spec (select : TranslationEntry → Bool) (sc : Bool) (st : Sys)
    (hn : 0 < st.coreMap.numPhysPages) (r : Option Nat) (st1 : Sys)
    (h : clockSweep select sc st.coreMap.numPhysPages st = (r, st1)) :
    st1.coreMap.sameFrames st.coreMap ∧
    st1.coreMap.victimIndex < st.coreMap.numPhysPages ∧
    ∀ v, r = some v → st1.coreMap.victimIndex = v := by
  have hf := clockSweep_frame select sc st.coreMap.numPhysPages st
  have hc := clockSweep_cursor select sc st.coreMap.numPhysPages st hn
  rw [h] at hf hc
  exact ⟨hf, hc.2 (Or.inl hn), fun v hv => (hc.1 v hv).2⟩

theorem GetVictimClock_spec (st : Sys) (hn : 0 < st.coreMap.numPhysPages) :
    (GetVictimClock st).2.coreMap.sameFrames st.coreMap ∧
    (GetVictimClock st).1 < st.coreMap.numPhysPages ∧
    (GetVictimClock st).2.coreMap.victimIndex = (GetVictimClock st).1 := by
  unfold GetVictimClock
  split
  · rename_i v st1 h1
    obtain ⟨a1, b1, c1⟩ := clockPass_spec _ _ st hn _ _ h1
    exact ⟨a1, by rw [← c1 v rfl]; exact b1, c1 v rfl⟩
  · rename_i st1 h1
    obtain ⟨a1, b1, -⟩ := clockPass_spec _ _ st hn _ _ h1
    have hn1 : 0 < st1.coreMap.numPhysPages := by rw [a1.2.1]; exact hn
    split
    · rename_i v st2 h2
      obtain ⟨a2, b2, c2⟩ := clockPass_spec _ _ st1 hn1 _ _ h2
      refine ⟨a2.tr a1, ?_, c2 v rfl⟩
      rw [← c2 v rfl, ← a1.2.1]; exact b2
    · rename_i st2 h2
      obtain ⟨a2, b2, -⟩ := clockPass_spec _ _ st1 hn1 _ _ h2
      have hn2 : 0 < st2.coreMap.numPhysPages := by rw [a2.2.1]; exact hn1
      split
      · rename_i v st3 h3
        obtain ⟨a3, b3, c3⟩ := clockPass_spec _ _ st2 hn2 _ _ h3
        refine ⟨(a3.tr a2).tr a1, ?_, c3 v rfl⟩
        rw [← c3 v rfl, ← a1.2.1, ← a2.2.1]; exact b3
      · rename_i st3 h3
        obtain ⟨a3, b3, -⟩ := clockPass_spec _ _ st2 hn2 _ _ h3
        have hn3 : 0 < st3.coreMap.numPhysPages := by rw [a3.2.1]; exact hn2
        split
        · rename_i v st4 h4
          obtain ⟨a4, b4, c4⟩ := clockPass_spec _ _ st3 hn3 _ _ h4
          refine ⟨((a4.tr a3).tr a2).tr a1, ?_, c4 v rfl⟩
          rw [← c4 v rfl, ← a1.2.1, ← a2.2.1, ← a3.2.1]; exact b4
        · rename_i st4 h4
          obtain ⟨a4, b4, -⟩ := clockPass_spec _ _ st3 hn3 _ _ h4
          refine ⟨((a4.tr a3).tr a2).tr a1, ?_, rfl⟩
          rw [← a1.2.1, ← a2.2.1, ← a3.2.1]; exact b4

theorem Coremap.lruLoop_spec (timers : Nat → Nat) (k : Nat) :
    (∀ i, i < k → timers i ≤ (Coremap.lruLoop timers k).2) ∧
    ((Coremap.lruLoop timers k).1 = none → (Coremap.lruLoop timers k).2 = 0) ∧
    (∀ j, (Coremap.lruLoop timers k).1 = some j →
      j < k ∧ timers j = (Coremap.lruLoop timers k).2 ∧ 0 < timers j ∧
        ∀ i, i < j → timers i < timers j) := by
  induction k with
  | zero => simp [Coremap.lruLoop]
  | succ k ih =>
    obtain ⟨h1, h2, h3⟩ := ih
    unfold Coremap.lruLoop
    by_cases hgt : timers k > (Coremap.lruLoop timers k).2
    · rw [if_pos hgt]
      refine ⟨?_, by simp, ?_⟩
      · intro i hi
        by_cases hik : i = k
        · subst hik; exact le_refl _
        · have := h1 i (by omega)
          simp only
          omega
      · intro j hj
        simp only [Option.some.injEq] at hj
        subst hj
        refine ⟨by omega, rfl, by omega, ?_⟩
        intro i hi
        have := h1 i hi
        omega
    · rw [if_neg hgt]
      refine ⟨?_, h2, ?_⟩
      · intro i hi
        by_cases hik : i = k
        · subst hik; omega
        · exact h1 i (by omega)
      · intro j hj
        obtain ⟨a, b, c, d⟩ := h3 j hj
        exact ⟨by omega, b, c, d⟩

theorem GetVictim_spec (pol : Policy) (rnd : Nat) (st st1 : Sys) (v : Nat)
    (hn : 0 < st.coreMap.numPhysPages) (h : GetVictim pol rnd st = some (v, st1)) :
    st1.coreMap.sameFrames st.coreMap ∧ v < st.coreMap.numPhysPages := by
  cases pol with
  | clock =>
    simp only [GetVictim, Option.some.injEq] at h
    have := GetVictimClock_spec st hn
    rw [h] at this
    exact ⟨this.1, this.2.1⟩
  | fifo =>
    simp only [GetVictim, Option.some.injEq, Prod.mk.injEq] at h
    obtain ⟨h1, h2⟩ := h
    subst h1 h2
    exact ⟨⟨rfl, rfl, rfl, rfl⟩, Nat.mod_lt _ hn⟩
  | lru =>
    simp only [GetVictim] at h
    split at h
    · rename_i victim hv
      simp only [Option.some.injEq, Prod.mk.injEq] at h
      obtain ⟨h1, h2⟩ := h
      subst h1 h2
      exact ⟨Coremap.sameFrames_refl _, (( Coremap.lruLoop_spec _ _).2.2 _ hv).1⟩
    · simp at h
  | random =>
    simp only [GetVictim, Option.some.injEq, Prod.mk.injEq] at h
    obtain ⟨h1, h2⟩ := h
    subst h1 h2
    exact ⟨Coremap.sameFrames_refl _, Nat.mod_lt _ hn⟩

/-! ## C3: what an acquisition guarantees -/

/-- After freeing bit `v` of a bitmap whose bits below `numBits` are all
used, `Find` returns `v`. -/
theorem Bitmap.Find_after_Clear (b : Bitmap) (v : Nat) (hv : v < b.numBits)
    (hfull : b.Find.1 = none) : (b.Clear v).Find = (some v, (b.Clear v).Mark v) := by
  have hall := Bitmap.firstClear_none b b.numBits 0 (Bitmap.Find_none b hfull)
  apply Bitmap.Find_of_firstClear
  cases hc : (b.Clear v).firstClear 0 (b.Clear v).numBits with
  | none =>
    have := Bitmap.firstClear_none (b.Clear v) _ 0 hc v (Nat.zero_le _)
      (by simpa [Bitmap.Clear] using hv)
    simp [Bitmap.Clear, store] at this
  | some f =>
    obtain ⟨-, h2, h3, -⟩ := Bitmap.firstClear_some (b.Clear v) _ 0 f hc
    by_cases hfv : f = v
    · rw [hfv]
    · have h5 := hall f (Nat.zero_le _) (by simpa [Bitmap.Clear] using h2)
      simp [Bitmap.Clear, store, hfv, h5] at h3

/-- C3 (acquisition postcondition). In a frame table of `numPhysPages > 0`
frames whose bitmap has that many bits, with a `SwapPage` that leaves the
owner table and the table size alone, if `ReplacePage(s)` returns frame `f`
then `f < numPhysPages`, the owner entry of `f` is `s`, `f` is marked used,
and the owner entry of every other frame is what it was. In the eviction
branch (`Find` reported no free frame) the calls made are `GetVictim` and then
`SwapPage` on the victim's previous owner with the page
`GetPhysicalPageIndex(victim)`, and, provided that this `SwapPage` call frees
exactly the victim frame, `f` is the frame `GetVictim` chose. -/
theorem ReplacePage_post (pol : Policy) (swap : SwapPageFn) (rnd : Nat)
    (s : Option SpaceId) (st st' : Sys) (f : Nat) (calls : List Call)
    (hn : 0 < st.coreMap.numPhysPages)
    (hbits : st.coreMap.pages.numBits = st.coreMap.numPhysPages)
    (hkeep : swap.keepsOwners)
    (hret : ReplacePage pol swap rnd s st = some (f, calls, st')) :
    f < st.coreMap.numPhysPages ∧
    st'.coreMap.coreMapAdd f = s ∧
    st'.coreMap.pages.Test f = true ∧
    (∀ i, i ≠ f → st'.coreMap.coreMapAdd i = st.coreMap.coreMapAdd i) ∧
    (st.coreMap.pages.Find.1 = none →
      ∃ victim st1 owner, GetVictim pol rnd st = some (victim, st1) ∧
        st.coreMap.coreMapAdd victim = some owner ∧
        calls = [Call.getVictim,
          Call.swapPage owner ((st1.spaces owner).GetPhysicalPageIndex victim)] ∧
        ((swap owner ((st1.spaces owner).GetPhysicalPageIndex victim) st1).coreMap
            = st1.coreMap.ClearPageIndex victim → f = victim)) := by
  unfold ReplacePage at hret
  split at hret
  · rename_i physIndex bm hFind
    simp only [Option.some.injEq, Prod.mk.injEq] at hret
    obtain ⟨h1, h2, h3⟩ := hret
    subst h1 h2 h3
    obtain ⟨hfc, hbm⟩ := Bitmap.Find_some _ _ _ hFind
    obtain ⟨-, hlt, -, -⟩ := Bitmap.firstClear_some _ _ 0 _ hfc
    subst hbm
    refine ⟨by omega, by simp [store], by simp [Bitmap.Test, Bitmap.Mark, store], ?_, ?_⟩
    · intro i hi
      simp [store, hi]
    · intro hnone
      rw [hFind] at hnone
      simp at hnone
  · rename_i bm0 hFind
    have hfull : st.coreMap.pages.Find.1 = none := by rw [hFind]
    split at hret
    · simp at hret
    · rename_i victim st1 hGV
      obtain ⟨hsame, hvlt⟩ := GetVictim_spec pol rnd st st1 victim hn hGV
      split at hret
      · simp at hret
      · rename_i owner hown
        obtain ⟨k1, k2, k3⟩ := hkeep owner ((st1.spaces owner).GetPhysicalPageIndex victim) st1
        simp only [] at hret
        split at hret
        · simp at hret
        · rename_i physIndex bm hFind2
          simp only [Option.some.injEq, Prod.mk.injEq] at hret
          obtain ⟨h1, h2, h3⟩ := hret
          subst h1 h2 h3
          obtain ⟨hfc, hbm⟩ := Bitmap.Find_some _ _ _ hFind2
          obtain ⟨-, hlt, -, -⟩ := Bitmap.firstClear_some _ _ 0 _ hfc
          subst hbm
          refine ⟨?_, by simp [store], by simp [Bitmap.Test, Bitmap.Mark, store], ?_, ?_⟩
          · rw [k3, hsame.2.2.2, hbits] at hlt
            omega
          · intro i hi
            simp [store, hi, k1, hsame.1]
          · intro _
            refine ⟨victim, st1, owner, hGV, by rw [← hsame.1]; exact hown, rfl, ?_⟩
            intro hsw
            have hvb : victim < st1.coreMap.pages.numBits := by
              rw [hsame.2.2.2, hbits]; exact hvlt
            have hfull1 : st1.coreMap.pages.Find.1 = none := by
              rw [hsame.2.2.2]; exact hfull
            have hF := Bitmap.Find_after_Clear st1.coreMap.pages victim hvb hfull1
            rw [hsw] at hFind2
            simp only [Coremap.ClearPageIndex] at hFind2
            rw [hF] at hFind2
            simp only [Prod.mk.injEq, Option.some.injEq] at hFind2
            exact hFind2.1.symm

theorem SwapPage_keepsOwners : SwapPageFn.keepsOwners AddressSpace.SwapPage :=
  fun _ _ _ => ⟨rfl, rfl, rfl⟩

/-- Witness for C3: both frames are used, so the FIFO victim (frame 0) is
swapped out by its owner, which frees exactly frame 0, and the frame is
handed to address space 9. -/
theorem ReplacePage_post_witness :
    fullTwoFrames.coreMap.pages.Find.1 = none ∧
    ∃ st', ReplacePage Policy.fifo AddressSpace.SwapPage 0 (some 9) fullTwoFrames
        = some (0, [Call.getVictim, Call.swapPage 0 0], st') ∧
      0 < fullTwoFrames.coreMap.numPhysPages ∧
      st'.coreMap.coreMapAdd 0 = some 9 ∧
      st'.coreMap.pages.Test 0 = true ∧
      (∀ i, i ≠ 0 → st'.coreMap.coreMapAdd i = fullTwoFrames.coreMap.coreMapAdd i) :=
  ⟨rfl, _, rfl,
    (ReplacePage_post Policy.fifo AddressSpace.SwapPage 0 (some 9) fullTwoFrames _ 0 _
      (by decide) rfl SwapPage_keepsOwners rfl).1,
    (ReplacePage_post Policy.fifo AddressSpace.SwapPage 0 (some 9) fullTwoFrames _ 0 _
      (by decide) rfl SwapPage_keepsOwners rfl).2.1,
    (ReplacePage_post Policy.fifo AddressSpace.SwapPage 0 (some 9) fullTwoFrames _ 0 _
      (by decide) rfl SwapPage_keepsOwners rfl).2.2.1,
    (ReplacePage_post Policy.fifo AddressSpace.SwapPage 0 (some 9) fullTwoFrames _ 0 _
      (by decide) rfl SwapPage_keepsOwners rfl).2.2.2.1⟩

/-! ## C2: the free bit and the owner entry -/

theorem releasedOneFrame_reachable :
    Reachable Policy.fifo AddressSpace.SwapPage releasedOneFrame := by
  have h0 : Reachable Policy.fifo AddressSpace.SwapPage
      ⟨{ coreMapAdd := fun _ => none, numPhysPages := 1, victimIndex := 0,
         timers := fun _ => 0, pages := Bitmap.new 1 },
       fun _ => identitySpace 1 (fun _ => (false, false))⟩ :=
    Reachable.construct 1 (fun _ => none) (fun _ => 0) _ _ rfl
  have h1 := Reachable.replacePage _ 0 7 0 [] _ h0 rfl
  exact Reachable.clear _ (some 7) h1

/-- C2, counterexample. Construct a one-frame table, let address space 7
acquire frame 0 with `ReplacePage`, then release it with `Clear`: the state is
reachable, the bitmap marks frame 0 free, yet its owner entry still names
address space 7, and owned frames plus free frames make 2, not 1. -/
theorem free_iff_unowned_counterexample :
    Reachable Policy.fifo AddressSpace.SwapPage releasedOneFrame ∧
    releasedOneFrame.coreMap.numPhysPages = 1 ∧
    releasedOneFrame.coreMap.pages.Test 0 = false ∧
    releasedOneFrame.coreMap.coreMapAdd 0 = some 7 ∧
    releasedOneFrame.coreMap.ownedCount + releasedOneFrame.coreMap.freeCount = 2 :=
  ⟨releasedOneFrame_reachable, rfl, by decide, by decide, by decide⟩

theorem filter_cover (p q : Nat → Bool) (l : List Nat)
    (h : ∀ i, i ∈ l → p i = true ∨ q i = true) :
    l.length ≤ (l.filter p).length + (l.filter q).length := by
  induction l with
  | nil => simp
  | cons a l ih =>
    have ih2 := ih (fun i hi => h i (List.mem_cons_of_mem _ hi))
    rcases h a (List.mem_cons_self _ _) with ha | ha
    · by_cases hq : q a = true
      · simp [List.filter_cons, ha, hq]; omega
      · simp [List.filter_cons, ha, hq]; omega
    · by_cases hp : p a = true
      · simp [List.filter_cons, ha, hp]; omega
      · simp [List.filter_cons, ha, hp]; omega

theorem ReplacePage_unownedFree (pol : Policy) (swap : SwapPageFn) (hswap : swap.onlyFrees)
    (rnd : Nat) (s : SpaceId) (st st' : Sys) (f : Nat) (calls : List Call)
    (hinv : st.coreMap.unownedFree)
    (hret : ReplacePage pol swap rnd (some s) st = some (f, calls, st')) :
    st'.coreMap.unownedFree := by
  obtain ⟨hn, hbits, hfree⟩ := hinv
  unfold ReplacePage at hret
  split at hret
  · rename_i physIndex bm hFind
    simp only [Option.some.injEq, Prod.mk.injEq] at hret
    obtain ⟨h1, h2, h3⟩ := hret
    subst h1 h2 h3
    obtain ⟨-, hbm⟩ := Bitmap.Find_some _ _ _ hFind
    subst hbm
    refine ⟨hn, hbits, ?_⟩
    intro i hi hnone
    by_cases hif : i = physIndex
    · subst hif; simp [store] at hnone
    · simp only [store, hif, if_false] at hnone
      simpa [Bitmap.Test, Bitmap.Mark, store, hif] using hfree i hi hnone
  · split at hret
    · simp at hret
    · rename_i victim st1 hGV
      obtain ⟨hsame, -⟩ := GetVictim_spec pol rnd st st1 victim hn hGV
      split at hret
      · simp at hret
      · rename_i owner hown
        obtain ⟨s1, s2, s3, s4⟩ :=
          hswap owner ((st1.spaces owner).GetPhysicalPageIndex victim) st1
        simp only [] at hret
        split at hret
        · simp at hret
        · rename_i physIndex bm hFind
          simp only [Option.some.injEq, Prod.mk.injEq] at hret
          obtain ⟨h1, h2, h3⟩ := hret
          subst h1 h2 h3
          obtain ⟨-, hbm⟩ := Bitmap.Find_some _ _ _ hFind
          subst hbm
          refine ⟨?_, ?_, ?_⟩
          · show 0 < (swap _ _ st1).coreMap.numPhysPages
            rw [s2, hsame.2.1]; exact hn
          · show (swap _ _ st1).coreMap.pages.numBits = (swap _ _ st1).coreMap.numPhysPages
            rw [s2, s3, hsame.2.1, hsame.2.2.2]; exact hbits
          · intro i hi hnone
            change i < (swap _ _ st1).coreMap.numPhysPages at hi
            rw [s2, hsame.2.1] at hi
            by_cases hif : i = physIndex
            · subst hif; simp [store] at hnone
            · simp only [store, hif, if_false] at hnone
              rw [s1, hsame.1] at hnone
              have h5 := hfree i hi hnone
              rw [← hsame.2.2.2] at h5
              simp only [Bitmap.Test, Bitmap.Mark, store, hif, if_false]
              cases h6 : (swap owner ((st1.spaces owner).GetPhysicalPageIndex victim) st1).coreMap.pages.map i with
              | false => rfl
              | true =>
                have := s4 i h6
                rw [h5] at this
                exact absurd this (by decide)

theorem Reachable_unownedFree (pol : Policy) (swap : SwapPageFn) (hswap : swap.onlyFrees)
    (st : Sys) (h : Reachable pol swap st) : st.coreMap.unownedFree := by
  induction h with
  | construct physPages owners0 timers0 cm spaces hnew =>
    unfold Coremap.new at hnew
    split at hnew
    · rename_i hpos
      simp only [Option.some.injEq] at hnew
      subst hnew
      exact ⟨hpos, rfl, fun i _ _ => rfl⟩
    · simp at hnew
  | replacePage st rnd s f calls st' _ hret ih =>
    exact ReplacePage_unownedFree pol swap hswap rnd s st st' f calls ih hret
  | clear st space _ ih =>
    obtain ⟨hn, hbits, hfree⟩ := ih
    refine ⟨hn, ?_, ?_⟩
    · exact (Coremap.clearLoop_numBits _ _ _).trans hbits
    · intro i hi hnone
      have := hfree i hi hnone
      simp only [Coremap.Clear, Bitmap.Test, Coremap.clearLoop_map]
      split
      · rfl
      · exact this
  | clearPageIndex st page _ ih =>
    obtain ⟨hn, hbits, hfree⟩ := ih
    refine ⟨hn, hbits, ?_⟩
    intro i hi hnone
    have := hfree i hi hnone
    simp only [Coremap.ClearPageIndex, Bitmap.Test, Bitmap.Clear, store]
    split
    · rfl
    · exact this

/-- C2, as the code has it. In every state reachable from construction by
`ReplacePage`, `Clear` and `ClearPageIndex` calls, with a `SwapPage` that only
frees frames, every frame below `numPhysPages` whose owner entry is null is
free in the bitmap (the converse fails: a released frame keeps its last
owner); consequently the frames with a non-null owner entry plus the free
frames number at least `numPhysPages`. -/
theorem reachable_unowned_is_free (pol : Policy) (swap : SwapPageFn) (hswap : swap.onlyFrees)
    (st : Sys) (h : Reachable pol swap st) :
    (∀ i, i < st.coreMap.numPhysPages → st.coreMap.coreMapAdd i = none →
      st.coreMap.pages.Test i = false) ∧
    st.coreMap.numPhysPages ≤ st.coreMap.ownedCount + st.coreMap.freeCount := by
  obtain ⟨-, -, hfree⟩ := Reachable_unownedFree pol swap hswap st h
  refine ⟨hfree, ?_⟩
  have := filter_cover (fun i => (st.coreMap.coreMapAdd i).isSome)
    (fun i => !st.coreMap.pages.Test i) (List.range st.coreMap.numPhysPages) (by
      intro i hi
      rw [List.mem_range] at hi
      cases ho : st.coreMap.coreMapAdd i with
      | some s => left; simp [ho]
      | none => right; simp [hfree i hi ho])
  simpa [Coremap.ownedCount, Coremap.freeCount] using this

theorem SwapPage_onlyFrees : SwapPageFn.onlyFrees AddressSpace.SwapPage := by
  intro space vpn st
  refine ⟨rfl, rfl, rfl, ?_⟩
  intro i hi
  simp only [AddressSpace.SwapPage, Coremap.ClearPageIndex, Bitmap.Test, Bitmap.Clear, store] at hi
  split at hi
  · exact absurd hi (by decide)
  · exact hi

theorem acquiredOneOfTwo_reachable :
    Reachable Policy.fifo AddressSpace.SwapPage acquiredOneOfTwo :=
  Reachable.replacePage
    ⟨{ coreMapAdd := fun _ => none, numPhysPages := 2, victimIndex := 0,
       timers := fun _ => 0, pages := Bitmap.new 2 },
     fun _ => identitySpace 2 (fun _ => (false, false))⟩ 0 7 0 [] _
    (Reachable.construct 2 (fun _ => none) (fun _ => 0) _ _ rfl) rfl

/-- Witness for C2: of two frames, frame 0 has been acquired by address
space 7 and frame 1 is still unowned and free. -/
theorem reachable_unowned_is_free_witness :
    acquiredOneOfTwo.coreMap.coreMapAdd 1 = none ∧
    acquiredOneOfTwo.coreMap.pages.Test 1 = false ∧
    (∀ i, i < acquiredOneOfTwo.coreMap.numPhysPages →
      acquiredOneOfTwo.coreMap.coreMapAdd i = none →
      acquiredOneOfTwo.coreMap.pages.Test i = false) ∧
    acquiredOneOfTwo.coreMap.numPhysPages
      ≤ acquiredOneOfTwo.coreMap.ownedCount + acquiredOneOfTwo.coreMap.freeCount :=
  ⟨by decide, by decide,
    reachable_unowned_is_free Policy.fifo AddressSpace.SwapPage SwapPage_onlyFrees
      acquiredOneOfTwo acquiredOneOfTwo_reachable⟩

/-! ## C6: the first pass of the clock policy -/

theorem clockSweep_plain_step (select : TranslationEntry → Bool) (k : Nat) (st : Sys) :
    clockSweep select false (k + 1) st =
      match frameEntry st (nextCursor st.coreMap.numPhysPages st.coreMap.victimIndex) with
      | none => (some (nextCursor st.coreMap.numPhysPages st.coreMap.victimIndex),
          st.withCursor (nextCursor st.coreMap.numPhysPages st.coreMap.victimIndex))
      | some e =>
        if select e then (some (nextCursor st.coreMap.numPhysPages st.coreMap.victimIndex),
          st.withCursor (nextCursor st.coreMap.numPhysPages st.coreMap.victimIndex))
        else clockSweep select false k
          (st.withCursor (nextCursor st.coreMap.numPhysPages st.coreMap.victimIndex)) := by
  simp only [clockSweep, frameEntry, nextCursor, Sys.withCursor]
  cases h : st.coreMap.coreMapAdd ((st.coreMap.victimIndex + 1) % UINT_MOD % st.coreMap.numPhysPages) with
  | none => rfl
  | some space => simp

theorem clockSweep_plain_some (select : TranslationEntry → Bool) :
    ∀ k st j, j < k →
      (∀ l, l < j → ∃ e, frameEntry st ((nextCursor st.coreMap.numPhysPages)^[l + 1]
          st.coreMap.victimIndex) = some e ∧ select e = false) →
      (∀ e, frameEntry st ((nextCursor st.coreMap.numPhysPages)^[j + 1]
          st.coreMap.victimIndex) = some e → select e = true) →
      clockSweep select false k st =
        (some ((nextCursor st.coreMap.numPhysPages)^[j + 1] st.coreMap.victimIndex),
          st.withCursor ((nextCursor st.coreMap.numPhysPages)^[j + 1] st.coreMap.victimIndex)) := by
  intro k
  induction k with
  | zero => intro st j hj; omega
  | succ k ih =>
    intro st j hj hbefore hat
    rw [clockSweep_plain_step]
    cases j with
    | zero =>
      simp only [Nat.zero_add, Function.iterate_one] at hat ⊢
      cases he : frameEntry st (nextCursor st.coreMap.numPhysPages st.coreMap.victimIndex) with
      | none => rfl
      | some e => simp [hat e he]
    | succ j =>
      obtain ⟨e, he, hsel⟩ := hbefore 0 (by omega)
      simp only [Nat.zero_add, Function.iterate_one] at he
      rw [he]
      simp only [hsel, Bool.false_eq_true, if_false]
      have := ih (st.withCursor (nextCursor st.coreMap.numPhysPages st.coreMap.victimIndex)) j
        (by omega)
        (fun l hl => by
          have := hbefore (l + 1) (by omega)
          rw [Function.iterate_succ_apply] at this
          exact this)
        (by
          rw [Function.iterate_succ_apply] at hat
          exact hat)
      rw [Function.iterate_succ_apply]
      exact this

theorem nextCursor_iterate (n c : Nat) (hn : 0 < n) (hlt : n < UINT_MOD) (l : Nat) :
    (nextCursor n)^[l + 1] c = (nextCursor n c + l) % n := by
  induction l with
  | zero =>
    simp only [Nat.zero_add, Function.iterate_one, Nat.add_zero]
    exact (Nat.mod_eq_of_lt (Nat.mod_lt _ hn)).symm
  | succ l ih =>
    rw [Function.iterate_succ_apply', ih]
    have h1 : (nextCursor n c + l) % n < n := Nat.mod_lt _ hn
    unfold nextCursor at h1 ⊢
    rw [Nat.mod_eq_of_lt (show ((c + 1) % UINT_MOD % n + l) % n + 1 < UINT_MOD by omega)]
    rw [Nat.add_mod, Nat.mod_mod, ← Nat.add_mod]
    rfl

theorem frameClean_eq (st : Sys) (v : Nat) (e : TranslationEntry)
    (h : frameEntry st v = some e) : frameClean st v = (!e.use && !e.dirty) := by
  simp [frameClean, h]

/-- C6, as the code has it (clock pass 1). With every frame owned and at
least one frame whose page has neither use nor dirty set, `GetVictim` returns
the first such frame in the cyclic order that starts at the frame after the
cursor, `start = ((victimIndex + 1) mod 2^32) mod numPhysPages`, and goes on
`start + 1, start + 2, ...` modulo `numPhysPages` (the cursor's own frame is
examined last). The only thing the call changes is the cursor, which ends on
the returned frame: no use or dirty bit of any page changes. -/
theorem GetVictim_clock_pass1 (rnd : Nat) (st : Sys)
    (hn : 0 < st.coreMap.numPhysPages) (hlt : st.coreMap.numPhysPages < 2 ^ 32)
    (howned : ∀ i, i < st.coreMap.numPhysPages → ∃ space, st.coreMap.coreMapAdd i = some space)
    (i : Nat) (hi : i < st.coreMap.numPhysPages) (hclean : frameClean st i = true) :
    ∃ j, j < st.coreMap.numPhysPages ∧
      (∀ l, l < j → frameClean st
        (((st.coreMap.victimIndex + 1) % 2 ^ 32 % st.coreMap.numPhysPages + l)
          % st.coreMap.numPhysPages) = false) ∧
      frameClean st
        (((st.coreMap.victimIndex + 1) % 2 ^ 32 % st.coreMap.numPhysPages + j)
          % st.coreMap.numPhysPages) = true ∧
      GetVictim Policy.clock rnd st =
        some (((st.coreMap.victimIndex + 1) % 2 ^ 32 % st.coreMap.numPhysPages + j)
            % st.coreMap.numPhysPages,
          { st with coreMap := { st.coreMap with victimIndex :=
            ((st.coreMap.victimIndex + 1) % 2 ^ 32 % st.coreMap.numPhysPages + j)
              % st.coreMap.numPhysPages } }) := by
  have hs0 : nextCursor st.coreMap.numPhysPages st.coreMap.victimIndex
      < st.coreMap.numPhysPages := Nat.mod_lt _ hn
  have hex : ∃ j, j < st.coreMap.numPhysPages ∧ frameClean st
      ((nextCursor st.coreMap.numPhysPages st.coreMap.victimIndex + j)
        % st.coreMap.numPhysPages) = true := by
    refine ⟨(i + (st.coreMap.numPhysPages
      - nextCursor st.coreMap.numPhysPages st.coreMap.victimIndex)) % st.coreMap.numPhysPages,
      Nat.mod_lt _ hn, ?_⟩
    rw [Nat.add_mod, Nat.mod_mod, ← Nat.add_mod]
    have : nextCursor st.coreMap.numPhysPages st.coreMap.victimIndex
        + (i + (st.coreMap.numPhysPages
          - nextCursor st.coreMap.numPhysPages st.coreMap.victimIndex))
        = i + st.coreMap.numPhysPages := by omega
    rw [this, Nat.add_mod_right, Nat.mod_eq_of_lt hi]
    exact hclean
  obtain ⟨hj, hjc⟩ := Nat.find_spec hex
  have hmin : ∀ l, l < Nat.find hex → frameClean st
      ((nextCursor st.coreMap.numPhysPages st.coreMap.victimIndex + l)
        % st.coreMap.numPhysPages) = false := by
    intro l hl
    have := Nat.find_min hex hl
    simp only [not_and, Bool.not_eq_true] at this
    exact this (by omega)
  have hsweep := clockSweep_plain_some (fun e => !e.use && !e.dirty) st.coreMap.numPhysPages st
    (Nat.find hex) hj
    (by
      intro l hl
      rw [nextCursor_iterate _ _ hn hlt]
      obtain ⟨space, hsp⟩ := howned _ (Nat.mod_lt
        (nextCursor st.coreMap.numPhysPages st.coreMap.victimIndex + l) hn)
      have he : frameEntry st ((nextCursor st.coreMap.numPhysPages st.coreMap.victimIndex + l)
          % st.coreMap.numPhysPages) = some ((st.spaces space).GetPageTableEntry
            ((st.spaces space).GetPhysicalPageIndex
              ((nextCursor st.coreMap.numPhysPages st.coreMap.victimIndex + l)
                % st.coreMap.numPhysPages))) := by
        simp only [frameEntry]
        rw [hsp]
      refine ⟨_, he, ?_⟩
      exact (frameClean_eq st _ _ he).symm.trans (hmin l hl))
    (by
      intro e he
      rw [nextCursor_iterate _ _ hn hlt] at he
      exact (frameClean_eq st _ _ he).symm.trans hjc)
  rw [nextCursor_iterate _ _ hn hlt] at hsweep
  refine ⟨Nat.find hex, hj, hmin, hjc, ?_⟩
  simp only [GetVictim, GetVictimClock, clockPass1]
  rw [hsweep]
  rfl

/-- C6, counterexample. Two owned frames, both pages with use and dirty
clear, cursor 0: frame 0, the frame at the cursor position, is the first clean
frame of a sweep that starts from the cursor position, yet `GetVictim` returns
frame 1. Nor does the sweep start from `(cursor + 1) mod numPhysPages` for
every cursor value: with three such frames and cursor `2^32 - 1` that frame is
`2^32 mod 3 = 1`, and `GetVictim` returns frame 0. -/
theorem clock_pass1_order_counterexample :
    (allCleanTwo 0).coreMap.victimIndex = 0 ∧
    frameClean (allCleanTwo 0) 0 = true ∧
    (GetVictim Policy.clock 0 (allCleanTwo 0)).map Prod.fst = some 1 ∧
    ((allCleanThree 4294967295).coreMap.victimIndex + 1) % 3 = 1 ∧
    frameClean (allCleanThree 4294967295) 1 = true ∧
    (GetVictim Policy.clock 0 (allCleanThree 4294967295)).map Prod.fst = some 0 := by
  decide

/-- Witness for C6: the clock scenario, where frame 1 is the clean one. -/
theorem GetVictim_clock_pass1_witness :
    frameClean clockScenario 1 = true ∧
    ∃ j, j < clockScenario.coreMap.numPhysPages ∧
      (∀ l, l < j → frameClean clockScenario
        (((clockScenario.coreMap.victimIndex + 1) % 2 ^ 32 % clockScenario.coreMap.numPhysPages + l)
          % clockScenario.coreMap.numPhysPages) = false) ∧
      frameClean clockScenario
        (((clockScenario.coreMap.victimIndex + 1) % 2 ^ 32 % clockScenario.coreMap.numPhysPages + j)
          % clockScenario.coreMap.numPhysPages) = true ∧
      GetVictim Policy.clock 0 clockScenario =
        some (((clockScenario.coreMap.victimIndex + 1) % 2 ^ 32
              % clockScenario.coreMap.numPhysPages + j) % clockScenario.coreMap.numPhysPages,
          { clockScenario with coreMap := { clockScenario.coreMap with victimIndex :=
            ((clockScenario.coreMap.victimIndex + 1) % 2 ^ 32
              % clockScenario.coreMap.numPhysPages + j)
              % clockScenario.coreMap.numPhysPages } }) :=
  ⟨by decide,
    GetVictim_clock_pass1 0 clockScenario (by decide) (by decide) (fun _ _ => ⟨0, rfl⟩)
      1 (by decide) (by decide)⟩

/-! ## C7: the clock second-chance scenario -/

theorem withCursor_coreMapAdd (st : Sys) (v : Nat) :
    (st.withCursor v).coreMap.coreMapAdd = st.coreMap.coreMapAdd := rfl

theorem withCursor_numPhysPages (st : Sys) (v : Nat) :
    (st.withCursor v).coreMap.numPhysPages = st.coreMap.numPhysPages := rfl

theorem withCursor_victimIndex (st : Sys) (v : Nat) :
    (st.withCursor v).coreMap.victimIndex = v := rfl

theorem withCursor_withCursor (st : Sys) (v w : Nat) :
    (st.withCursor v).withCursor w = st.withCursor w := rfl

theorem frameEntry_withCursor (st : Sys) (v i : Nat) :
    frameEntry (st.withCursor v) i = frameEntry st i := rfl

theorem frameBits_withCursor (st : Sys) (v i : Nat) :
    frameBits (st.withCursor v) i = frameBits st i := rfl

theorem secondChance_coreMap (st : Sys) (v : Nat) :
    (st.secondChance v).coreMap = st.coreMap := by
  unfold Sys.secondChance
  split <;> rfl

theorem frameBits_some (st : Sys) (i : Nat) (b : Bool × Bool) (h : frameBits st i = some b) :
    ∃ e, frameEntry st i = some e ∧ e.use = b.1 ∧ e.dirty = b.2 := by
  unfold frameBits at h
  split at h
  · simp at h
  · rename_i e he
    simp only [Option.some.injEq] at h
    subst h
    exact ⟨e, he, rfl, rfl⟩

/-- Clearing the use bit of the page behind frame `v` leaves alone every
frame whose bits differ from those of `v`. -/
theorem frameBits_secondChance_other (st : Sys) (v i : Nat) (bv bi : Bool × Bool)
    (hv : frameBits st v = some bv) (hi : frameBits st i = some bi) (hne : bi ≠ bv) :
    frameBits (st.secondChance v) i = some bi := by
  unfold frameBits frameEntry at hv hi
  unfold frameBits frameEntry Sys.secondChance
  cases hov : st.coreMap.coreMapAdd v with
  | none => rw [hov] at hv; simp at hv
  | some spv =>
    cases hoi : st.coreMap.coreMapAdd i with
    | none => rw [hoi] at hi; simp at hi
    | some spi =>
      rw [hov] at hv
      rw [hoi] at hi
      simp only [Option.some.injEq] at hv hi
      simp only [hoi]
      by_cases hsp : spi = spv
      · subst hsp
        simp only [store, if_true, AddressSpace.SetNotUsed, AddressSpace.GetPageTableEntry,
          AddressSpace.GetPhysicalPageIndex] at hv hi ⊢
        by_cases hvpn : (st.spaces spi).physIndex i = (st.spaces spi).physIndex v
        · rw [hvpn] at hi
          rw [hv] at hi
          exact absurd hi.symm hne
        · simp only [hvpn, if_false]
          rw [hi]
      · simp only [store, hsp, if_false]
        rw [hi]

/-- Clearing the use bit of the page behind frame `v` clears it for `v`. -/
theorem frameBits_secondChance_self (st : Sys) (v : Nat) (bv : Bool × Bool)
    (hv : frameBits st v = some bv) :
    frameBits (st.secondChance v) v = some (false, bv.2) := by
  unfold frameBits frameEntry at hv
  unfold frameBits frameEntry Sys.secondChance
  cases hov : st.coreMap.coreMapAdd v with
  | none => rw [hov] at hv; simp at hv
  | some spv =>
    rw [hov] at hv
    simp only [Option.some.injEq] at hv
    simp only [hov]
    simp only [store, if_true, AddressSpace.SetNotUsed, AddressSpace.GetPageTableEntry,
      AddressSpace.GetPhysicalPageIndex] at hv ⊢
    rw [← hv]

theorem clockSweep_chance_step (select : TranslationEntry → Bool) (k : Nat) (st : Sys) :
    clockSweep select true (k + 1) st =
      match frameEntry st (nextCursor st.coreMap.numPhysPages st.coreMap.victimIndex) with
      | none => (some (nextCursor st.coreMap.numPhysPages st.coreMap.victimIndex),
          st.withCursor (nextCursor st.coreMap.numPhysPages st.coreMap.victimIndex))
      | some e =>
        if select e then (some (nextCursor st.coreMap.numPhysPages st.coreMap.victimIndex),
          st.withCursor (nextCursor st.coreMap.numPhysPages st.coreMap.victimIndex))
        else if e.use then clockSweep select true k
          ((st.withCursor (nextCursor st.coreMap.numPhysPages st.coreMap.victimIndex)).secondChance
            (nextCursor st.coreMap.numPhysPages st.coreMap.victimIndex))
        else clockSweep select true k
          (st.withCursor (nextCursor st.coreMap.numPhysPages st.coreMap.victimIndex)) := by
  simp only [clockSweep, frameEntry, nextCursor, Sys.withCursor, Sys.secondChance]
  cases h : st.coreMap.coreMapAdd ((st.coreMap.victimIndex + 1) % UINT_MOD % st.coreMap.numPhysPages) with
  | none => rfl
  | some space => simp

theorem clockSweep_plain_none (select : TranslationEntry → Bool) :
    ∀ k st,
      (∀ l, l < k → ∃ e, frameEntry st ((nextCursor st.coreMap.numPhysPages)^[l + 1]
          st.coreMap.victimIndex) = some e ∧ select e = false) →
      clockSweep select false k st =
        (none, st.withCursor ((nextCursor st.coreMap.numPhysPages)^[k] st.coreMap.victimIndex)) := by
  intro k
  induction k with
  | zero => intro st _; rfl
  | succ k ih =>
    intro st hall
    rw [clockSweep_plain_step]
    obtain ⟨e, he, hsel⟩ := hall 0 (by omega)
    simp only [Nat.zero_add, Function.iterate_one] at he
    rw [he]
    simp only [hsel, Bool.false_eq_true, if_false]
    have := ih (st.withCursor (nextCursor st.coreMap.numPhysPages st.coreMap.victimIndex))
      (fun l hl => by
        have := hall (l + 1) (by omega)
        rw [Function.iterate_succ_apply] at this
        exact this)
    rw [Function.iterate_succ_apply]
    exact this

theorem nextCursor_four (c : Nat) (hc : c < 4) : nextCursor 4 c = (c + 1) % 4 := by
  unfold nextCursor UINT_MOD
  rw [Nat.mod_eq_of_lt (show c + 1 < 2 ^ 32 by omega)]

/-- C7, as the code has it (clock second-chance scenario). Four owned frames
with (use, dirty) = (1,0), (0,0), (1,1), (0,1) and cursor 0: the first
`GetVictim` returns frame 1 and changes nothing but the cursor. In any state
with the cursor where that call left it (1) and bits (1,0), (1,0), (1,1),
(0,1), that is, frame 1 reused with bits (1,0), the second `GetVictim` returns
frame 3; pass 2 has cleared the use bit of frame 2, the only frame it skipped,
and frame 0 still has its use bit set. -/
theorem clock_second_chance_scenario (rnd : Nat) (st st2 : Sys)
    (hn : st.coreMap.numPhysPages = 4) (hc : st.coreMap.victimIndex = 0)
    (h0 : frameBits st 0 = some (true, false)) (h1 : frameBits st 1 = some (false, false))
    (h2 : frameBits st 2 = some (true, true)) (h3 : frameBits st 3 = some (false, true))
    (hn2 : st2.coreMap.numPhysPages = 4) (hc2 : st2.coreMap.victimIndex = 1)
    (k0 : frameBits st2 0 = some (true, false)) (k1 : frameBits st2 1 = some (true, false))
    (k2 : frameBits st2 2 = some (true, true)) (k3 : frameBits st2 3 = some (false, true)) :
    GetVictim Policy.clock rnd st = some (1, st.withCursor 1) ∧
    ∃ st3, GetVictim Policy.clock rnd st2 = some (3, st3) ∧
      frameBits st3 0 = some (true, false) ∧
      frameBits st3 1 = some (true, false) ∧
      frameBits st3 2 = some (false, true) ∧
      frameBits st3 3 = some (false, true) ∧
      st3.coreMap.victimIndex = 3 := by
  have _ := h0
  have _ := h2
  have _ := h3
  constructor
  · -- first call: pass 1 stops at its first step, on frame 1
    obtain ⟨e1, he1, hu1, hd1⟩ := frameBits_some st 1 _ h1
    have hsweep := clockSweep_plain_some (fun e => !e.use && !e.dirty) 4 st 0 (by omega)
      (fun l hl => absurd hl (Nat.not_lt_zero l))
      (by
        intro e he
        simp only [Nat.zero_add, Function.iterate_one, hn, hc, nextCursor_four 0 (by omega)] at he
        have : e = e1 := Option.some.inj (he.symm.trans he1)
        subst this
        simp only [hu1, hd1]
        rfl)
    simp only [Nat.zero_add, Function.iterate_one, hn, hc, nextCursor_four 0 (by omega)] at hsweep
    simp only [GetVictim, GetVictimClock, clockPass1, hn]
    rw [hsweep]
  · -- second call: pass 1 finds nothing
    obtain ⟨f0, hf0, hfu0, hfd0⟩ := frameBits_some st2 0 _ k0
    obtain ⟨f1, hf1, hfu1, hfd1⟩ := frameBits_some st2 1 _ k1
    obtain ⟨f2, hf2, hfu2, hfd2⟩ := frameBits_some st2 2 _ k2
    obtain ⟨f3, hf3, hfu3, hfd3⟩ := frameBits_some st2 3 _ k3
    have hpass1 := clockSweep_plain_none (fun e => !e.use && !e.dirty) 4 st2 (by
      intro l hl
      rw [hn2, hc2, nextCursor_iterate 4 1 (by omega) (by decide) l,
        nextCursor_four 1 (by omega)]
      interval_cases l
      · exact ⟨f2, hf2, by simp only [hfu2, hfd2]; rfl⟩
      · exact ⟨f3, hf3, by simp only [hfu3, hfd3]; rfl⟩
      · exact ⟨f0, hf0, by simp only [hfu0, hfd0]; rfl⟩
      · exact ⟨f1, hf1, by simp only [hfu1, hfd1]; rfl⟩)
    rw [hn2, hc2, nextCursor_iterate 4 1 (by omega) (by decide) 3,
      nextCursor_four 1 (by omega)] at hpass1
    -- pass 2, first step: frame 2 has use set, so it gets its second chance
    have hb : frameBits ((st2.withCursor 2).secondChance 2) 3 = some (false, true) :=
      frameBits_secondChance_other (st2.withCursor 2) 2 3 _ _ k2 k3 (by decide)
    obtain ⟨g3, hg3, hgu3, hgd3⟩ := frameBits_some _ 3 _ hb
    have hcm : ((st2.withCursor 2).secondChance 2).coreMap = (st2.withCursor 2).coreMap :=
      secondChance_coreMap _ _
    have hpass2 : clockSweep (fun e => !e.use && e.dirty) true 4 (st2.withCursor 1)
        = (some 3, ((st2.withCursor 2).secondChance 2).withCursor 3) := by
      rw [clockSweep_chance_step]
      simp only [withCursor_numPhysPages, withCursor_victimIndex, hn2,
        nextCursor_four 1 (by omega), frameEntry_withCursor, withCursor_withCursor]
      rw [show (1 + 1) % 4 = 2 from rfl, hf2]
      simp only [hfu2, hfd2, Bool.not_true, Bool.false_and, Bool.false_eq_true, if_false, if_true]
      rw [clockSweep_chance_step]
      simp only [hcm, withCursor_numPhysPages, withCursor_victimIndex, hn2,
        nextCursor_four 2 (by omega)]
      rw [show (2 + 1) % 4 = 3 from rfl, hg3]
      simp only [hgu3, hgd3, Bool.not_false, Bool.and_self, if_true]
    refine ⟨((st2.withCursor 2).secondChance 2).withCursor 3, ?_,
      frameBits_secondChance_other (st2.withCursor 2) 2 0 _ _ k2 k0 (by decide),
      frameBits_secondChance_other (st2.withCursor 2) 2 1 _ _ k2 k1 (by decide),
      frameBits_secondChance_self (st2.withCursor 2) 2 _ k2,
      hb, rfl⟩
    simp only [GetVictim, GetVictimClock, clockPass1, clockPass2, hn2]
    rw [hpass1]
    simp only [withCursor_numPhysPages, hn2, show (2 + 3) % 4 = 1 from rfl]
    rw [hpass2]

/-- C7, counterexample. In the scenario the first call returns frame 1; once
frame 1 is reused with bits (1,0) the bits are (1,0), (1,0), (1,1), (0,1) and
the second call returns frame 3 with the use bit of frame 0 still set: the
first call never visited frame 0, pass 1 of the second call clears nothing,
and pass 2 stops at frame 3 before reaching frame 0. -/
theorem clock_scenario_counterexample :
    (GetVictim Policy.clock 0 clockScenario).map Prod.fst = some 1 ∧
    [frameBits clockScenarioReused 0, frameBits clockScenarioReused 1,
      frameBits clockScenarioReused 2, frameBits clockScenarioReused 3]
      = [some (true, false), some (true, false), some (true, true), some (false, true)] ∧
    (GetVictim Policy.clock 0 clockScenarioReused).map (fun r => (r.1, frameBits r.2 0))
      = some (3, some (true, false)) := by
  decide

/-- Witness for C7: the scenario with all four frames owned by one address
space. -/
theorem clock_second_chance_scenario_witness :
    GetVictim Policy.clock 0 clockScenario = some (1, clockScenario.withCursor 1) ∧
    ∃ st3, GetVictim Policy.clock 0 clockScenarioReused = some (3, st3) ∧
      frameBits st3 0 = some (true, false) ∧
      frameBits st3 1 = some (true, false) ∧
      frameBits st3 2 = some (false, true) ∧
      frameBits st3 3 = some (false, true) ∧
      st3.coreMap.victimIndex = 3 :=
  clock_second_chance_scenario 0 clockScenario clockScenarioReused rfl rfl
    (by decide) (by decide) (by decide) (by decide) rfl rfl
    (by decide) (by decide) (by decide) (by decide)

/-! ## C8: the FIFO cursor -/

theorem fifo_nth (rnd : Nat) : ∀ k st, st.coreMap.victimIndex < UINT_MOD →
    GetVictimNth Policy.fifo rnd k st =
      some (((st.coreMap.victimIndex + k) % UINT_MOD) % st.coreMap.numPhysPages,
        st.withCursor ((st.coreMap.victimIndex + k + 1) % UINT_MOD)) := by
  intro k
  induction k with
  | zero =>
    intro st hc
    simp only [GetVictimNth, GetVictim, Nat.add_zero, Nat.mod_eq_of_lt hc]
    rfl
  | succ k ih =>
    intro st hc
    simp only [GetVictimNth, GetVictim]
    have := ih (st.withCursor ((st.coreMap.victimIndex + 1) % UINT_MOD))
      (Nat.mod_lt _ (by decide))
    simp only [withCursor_victimIndex, withCursor_numPhysPages, withCursor_withCursor] at this
    have e1 : ((st.coreMap.victimIndex + 1) % UINT_MOD + k) % UINT_MOD
        = (st.coreMap.victimIndex + (k + 1)) % UINT_MOD := by
      unfold UINT_MOD; omega
    have e2 : ((st.coreMap.victimIndex + 1) % UINT_MOD + k + 1) % UINT_MOD
        = (st.coreMap.victimIndex + (k + 1) + 1) % UINT_MOD := by
      unfold UINT_MOD; omega
    rw [e1, e2] at this
    exact this

/-- Until the 32-bit cursor wraps, consecutive FIFO victims from a fresh
table go round the frames: call `k + 1` returns `k mod numPhysPages`. -/
theorem fifo_order_before_wrap (rnd : Nat) (st : Sys) (h0 : st.coreMap.victimIndex = 0)
    (k : Nat) (hk : k < UINT_MOD) :
    (GetVictimNth Policy.fifo rnd k st).map Prod.fst = some (k % st.coreMap.numPhysPages) := by
  rw [fifo_nth rnd k st (by rw [h0]; decide), h0, Nat.zero_add, Nat.mod_eq_of_lt hk]
  rfl

/-- C8, the code at the failing input. From a fresh three-frame table the
first FIFO call returns frame 0, call number `2^32` returns frame 0 (the
cursor is `2^32 - 1`), and call number `2^32 + 1`, made with the cursor
wrapped to 0, returns frame 0 again instead of `(0 + 1) mod 3 = 1`. -/
theorem fifo_wrap_repeats_frame :
    Coremap.new 3 (fun _ => none) (fun _ => 0) = some freshThree.coreMap ∧
    (GetVictimNth Policy.fifo 0 0 freshThree).map Prod.fst = some 0 ∧
    (GetVictimNth Policy.fifo 0 4294967295 freshThree).map Prod.fst = some 0 ∧
    (GetVictimNth Policy.fifo 0 4294967296 freshThree).map Prod.fst = some 0 := by
  refine ⟨rfl, rfl, ?_, ?_⟩
  · rw [fifo_nth 0 _ freshThree (by decide)]
    decide
  · rw [fifo_nth 0 _ freshThree (by decide)]
    decide

/-! ## C9 and C10: the LRU scan -/

theorem Coremap.lruLoop_zero (timers : Nat → Nat) (k : Nat)
    (hz : ∀ i, i < k → timers i = 0) : Coremap.lruLoop timers k = (none, 0) := by
  induction k with
  | zero => rfl
  | succ k ih =>
    unfold Coremap.lruLoop
    rw [ih (fun i hi => hz i (by omega)), hz k (by omega)]
    simp

/-- With some counter above zero the LRU scan returns the lowest frame that
holds the largest counter, and changes nothing. -/
theorem GetVictim_lru_max (rnd : Nat) (st : Sys) (i : Nat)
    (hi : i < st.coreMap.numPhysPages) (hpos : 0 < st.coreMap.timers i) :
    ∃ j, GetVictim Policy.lru rnd st = some (j, st) ∧ j < st.coreMap.numPhysPages ∧
      (∀ l, l < st.coreMap.numPhysPages → st.coreMap.timers l ≤ st.coreMap.timers j) ∧
      (∀ l, l < j → st.coreMap.timers l < st.coreMap.timers j) := by
  obtain ⟨h1, h2, h3⟩ := Coremap.lruLoop_spec st.coreMap.timers st.coreMap.numPhysPages
  cases hv : (Coremap.lruLoop st.coreMap.timers st.coreMap.numPhysPages).1 with
  | none =>
    have := h1 i hi
    rw [h2 hv] at this
    omega
  | some j =>
    obtain ⟨a, b, -, d⟩ := h3 j hv
    refine ⟨j, ?_, a, ?_, d⟩
    · simp only [GetVictim, hv]
    · intro l hl
      rw [b]
      exact h1 l hl

/-- C9, the code on the missed case. When every recency counter below
`numPhysPages` is zero the LRU scan never assigns `victim`, and `GetVictim`
returns that uninitialised local: no frame index is determined. -/
theorem GetVictim_lru_all_zero (rnd : Nat) (st : Sys)
    (hz : ∀ i, i < st.coreMap.numPhysPages → st.coreMap.timers i = 0) :
    GetVictim Policy.lru rnd st = none := by
  have hscan := Coremap.lruLoop_zero st.coreMap.timers st.coreMap.numPhysPages hz
  simp only [GetVictim, hscan]

/-- Witness for C9: two frames, both counters zero. -/
theorem GetVictim_lru_all_zero_witness :
    GetVictim Policy.lru 0
      ⟨sampleCoremap 2 (fun _ => some 0) (fun _ => true) 0 (fun _ => 0),
        fun _ => identitySpace 2 (fun _ => (false, false))⟩ = none :=
  GetVictim_lru_all_zero 0 _ (fun _ _ => rfl)

/-- After `UpdateTimers(k)`, if some other frame's counter did not wrap to
zero, the LRU victim is the lowest frame holding the largest counter, and it
is not `k`. -/
theorem lru_after_access_other (rnd : Nat) (cm : Coremap) (spaces : SpaceId → AddressSpace)
    (k i : Nat) (hi : i < cm.numPhysPages) (hik : i ≠ k)
    (hnz : (cm.timers i + 1) % UINT_MOD ≠ 0) :
    ∃ j, GetVictim Policy.lru rnd ⟨cm.UpdateTimers k, spaces⟩
        = some (j, ⟨cm.UpdateTimers k, spaces⟩) ∧
      j ≠ k ∧ j < cm.numPhysPages ∧
      (∀ l, l < cm.numPhysPages → (cm.UpdateTimers k).timers l ≤ (cm.UpdateTimers k).timers j) ∧
      (∀ l, l < j → (cm.UpdateTimers k).timers l < (cm.UpdateTimers k).timers j) := by
  have hti : (cm.UpdateTimers k).timers i = (cm.timers i + 1) % UINT_MOD := by
    simp [Coremap.UpdateTimers, store, hik, Coremap.timersLoop_spec, hi]
  have htk : (cm.UpdateTimers k).timers k = 0 := by
    simp [Coremap.UpdateTimers, store]
  obtain ⟨j, h1, h2, h3, h4⟩ := GetVictim_lru_max rnd ⟨cm.UpdateTimers k, spaces⟩ i hi
    (by rw [hti]; omega)
  refine ⟨j, h1, ?_, h2, h3, h4⟩
  intro hjk
  subst hjk
  have := h3 i hi
  simp only [htk, hti] at this
  omega

/-- C10, the code on the single-frame case. With one frame, `UpdateTimers(0)`
leaves its counter at zero, so the LRU scan that follows never assigns
`victim`: `GetVictim` does not return frame 0, it returns an uninitialised
local. -/
theorem lru_after_access_single_frame (rnd : Nat) (cm : Coremap)
    (spaces : SpaceId → AddressSpace) (h1 : cm.numPhysPages = 1) :
    GetVictim Policy.lru rnd ⟨cm.UpdateTimers 0, spaces⟩ = none := by
  have hscan := Coremap.lruLoop_zero (cm.UpdateTimers 0).timers (cm.UpdateTimers 0).numPhysPages
    (by
      intro i hi
      have hi1 : i < cm.numPhysPages := hi
      have hi0 : i = 0 := by omega
      subst hi0
      simp [Coremap.UpdateTimers, store])
  simp only [GetVictim, hscan]

/-- Witness for C10: one frame whose counter was 5. -/
theorem lru_after_access_single_frame_witness :
    (sampleCoremap 1 (fun _ => some 0) (fun _ => true) 0 (fun _ => 5)).timers 0 = 5 ∧
    GetVictim Policy.lru 0
      ⟨(sampleCoremap 1 (fun _ => some 0) (fun _ => true) 0 (fun _ => 5)).UpdateTimers 0,
        fun _ => identitySpace 1 (fun _ => (false, false))⟩ = none :=
  ⟨rfl, lru_after_access_single_frame 0 _ _ rfl⟩

/-! ## The TLB refill controller: how a fault runs -/

theorem firstInvalidSlot_some (tlb : Nat → TranslationEntry) (k : Nat) :
    ∀ i j, firstInvalidSlot tlb i k = some j →
      i ≤ j ∧ j < i + k ∧ (tlb j).valid = false ∧ ∀ l, i ≤ l → l < j → (tlb l).valid = true := by
  induction k with
  | zero => intro i j h; simp [firstInvalidSlot] at h
  | succ k ih =>
    intro i j h
    unfold firstInvalidSlot at h
    by_cases hb : (tlb i).valid = false
    · rw [if_pos hb] at h
      have hij : i = j := by simpa using h
      subst hij
      exact ⟨le_refl _, by omega, hb, fun l h1 h2 => by omega⟩
    · rw [if_neg hb] at h
      obtain ⟨h1, h2, h3, h4⟩ := ih (i + 1) j h
      refine ⟨by omega, by omega, h3, ?_⟩
      intro l hl1 hl2
      by_cases hli : l = i
      · subst hli; simpa using hb
      · exact h4 l (by omega) hl2

theorem firstInvalidSlot_none (tlb : Nat → TranslationEntry) (k : Nat) :
    ∀ i, firstInvalidSlot tlb i k = none → ∀ l, i ≤ l → l < i + k → (tlb l).valid = true := by
  induction k with
  | zero => intro i _ l h1 h2; omega
  | succ k ih =>
    intro i h l h1 h2
    unfold firstInvalidSlot at h
    by_cases hb : (tlb i).valid = false
    · rw [if_pos hb] at h; simp at h
    · rw [if_neg hb] at h
      by_cases hli : l = i
      · subst hli; simpa using hb
      · exact ih (i + 1) h l (by omega) (by omega)

/-- With an invalid slot below `TLB_SIZE` the scan finds the lowest one. -/
theorem firstInvalidSlot_of_invalid (tlb : Nat → TranslationEntry) (TLB_SIZE i : Nat)
    (hi : i < TLB_SIZE) (hinv : (tlb i).valid = false) :
    ∃ slot, firstInvalidSlot tlb 0 TLB_SIZE = some slot ∧ slot < TLB_SIZE ∧
      (tlb slot).valid = false ∧ ∀ j, j < slot → (tlb j).valid = true := by
  cases h : firstInvalidSlot tlb 0 TLB_SIZE with
  | none =>
    have := firstInvalidSlot_none tlb TLB_SIZE 0 h i (Nat.zero_le _) (by omega)
    rw [this] at hinv
    exact absurd hinv (by decide)
  | some slot =>
    obtain ⟨-, h2, h3, h4⟩ := firstInvalidSlot_some tlb TLB_SIZE 0 slot h
    exact ⟨slot, rfl, by omega, h3, fun j hj => h4 j (Nat.zero_le _) hj⟩

/-- With every slot below `TLB_SIZE` valid the scan finds nothing. -/
theorem firstInvalidSlot_of_full (tlb : Nat → TranslationEntry) (TLB_SIZE : Nat)
    (hfull : ∀ i, i < TLB_SIZE → (tlb i).valid = true) :
    firstInvalidSlot tlb 0 TLB_SIZE = none := by
  cases h : firstInvalidSlot tlb 0 TLB_SIZE with
  | none => rfl
  | some slot =>
    obtain ⟨-, h2, h3, -⟩ := firstInvalidSlot_some tlb TLB_SIZE 0 slot h
    rw [hfull slot (by omega)] at h3
    exact absurd h3 (by decide)

/-- `ReplaceTlbEntry` when the TLB it finds has an invalid slot. -/
theorem ReplaceTlbEntry_invalid (ops : AddressSpaceOps) (TLB_SIZE index : Nat) (space : SpaceId)
    (entry : TranslationEntry) (k : Kernel) (slot : Nat)
    (h : firstInvalidSlot k.tlb 0 TLB_SIZE = some slot) :
    ReplaceTlbEntry ops TLB_SIZE index space entry k =
      ([FaultCall.writeTlb slot entry], { k with tlb := store k.tlb slot entry }) := by
  simp only [ReplaceTlbEntry, h]

/-- `ReplaceTlbEntry` when the TLB it finds is full. -/
theorem ReplaceTlbEntry_full (ops : AddressSpaceOps) (TLB_SIZE index : Nat) (space : SpaceId)
    (entry : TranslationEntry) (k : Kernel)
    (h : firstInvalidSlot k.tlb 0 TLB_SIZE = none) :
    ReplaceTlbEntry ops TLB_SIZE index space entry k =
      ([FaultCall.syncTlbEntry space index, FaultCall.writeTlb index entry],
        { ops.SyncTlbEntry space index k with
          tlb := store (ops.SyncTlbEntry space index k).tlb index entry }) := by
  simp only [ReplaceTlbEntry, h]

/-- The handler on a page whose page-table entry is valid. -/
theorem PageFaultHandler_valid (pol : Policy) (ops : AddressSpaceOps) (rnd : Nat)
    (TLB_SIZE PAGE_SIZE : Nat) (k : Kernel) (space : SpaceId)
    (hcur : k.currentSpace = some space)
    (hvalid : ((k.sys.spaces space).GetPageTableEntry (k.badVAddr / PAGE_SIZE)).valid = true) :
    PageFaultHandler pol ops rnd TLB_SIZE PAGE_SIZE k =
      some (ReplaceTlbEntry ops TLB_SIZE (k.tlbSelection % TLB_SIZE) space
        ((k.sys.spaces space).GetPageTableEntry (k.badVAddr / PAGE_SIZE))
        { k with tlbSelection := (k.tlbSelection + 1) % UINT_MOD }) := by
  simp only [PageFaultHandler, hcur, hvalid]
  rfl

/-- The handler on a page whose page-table entry is not valid, once
`ReplacePage` has returned a frame. -/
theorem PageFaultHandler_invalid (pol : Policy) (ops : AddressSpaceOps) (rnd : Nat)
    (TLB_SIZE PAGE_SIZE : Nat) (k : Kernel) (space : SpaceId) (frame : Nat)
    (calls : List Call) (sys1 : Sys)
    (hcur : k.currentSpace = some space)
    (hinvalid : ((k.sys.spaces space).GetPageTableEntry (k.badVAddr / PAGE_SIZE)).valid = false)
    (hrp : ReplacePage pol ops.SwapPage rnd (some space) k.sys = some (frame, calls, sys1)) :
    PageFaultHandler pol ops rnd TLB_SIZE PAGE_SIZE k =
      if ((sys1.spaces space).GetPageTableEntry (k.badVAddr / PAGE_SIZE)).isInSwap = true then
        some (FaultCall.replacePage space frame
          :: FaultCall.loadFromSwap space (k.badVAddr / PAGE_SIZE) frame
          :: (ReplaceTlbEntry ops TLB_SIZE (k.tlbSelection % TLB_SIZE) space
              (ops.LoadFromSwap space (k.badVAddr / PAGE_SIZE) frame
                { k with tlbSelection := (k.tlbSelection + 1) % UINT_MOD, sys := sys1 }).1
              (ops.LoadFromSwap space (k.badVAddr / PAGE_SIZE) frame
                { k with tlbSelection := (k.tlbSelection + 1) % UINT_MOD, sys := sys1 }).2).1,
          (ReplaceTlbEntry ops TLB_SIZE (k.tlbSelection % TLB_SIZE) space
              (ops.LoadFromSwap space (k.badVAddr / PAGE_SIZE) frame
                { k with tlbSelection := (k.tlbSelection + 1) % UINT_MOD, sys := sys1 }).1
              (ops.LoadFromSwap space (k.badVAddr / PAGE_SIZE) frame
                { k with tlbSelection := (k.tlbSelection + 1) % UINT_MOD, sys := sys1 }).2).2)
      else
        some (FaultCall.replacePage space frame
          :: FaultCall.loadPage space (k.badVAddr / PAGE_SIZE) frame
          :: (ReplaceTlbEntry ops TLB_SIZE (k.tlbSelection % TLB_SIZE) space
              (ops.LoadPage space (k.badVAddr / PAGE_SIZE) frame
                { k with tlbSelection := (k.tlbSelection + 1) % UINT_MOD, sys := sys1 }).1
              (ops.LoadPage space (k.badVAddr / PAGE_SIZE) frame
                { k with tlbSelection := (k.tlbSelection + 1) % UINT_MOD, sys := sys1 }).2).1,
          (ReplaceTlbEntry ops TLB_SIZE (k.tlbSelection % TLB_SIZE) space
              (ops.LoadPage space (k.badVAddr / PAGE_SIZE) frame
                { k with tlbSelection := (k.tlbSelection + 1) % UINT_MOD, sys := sys1 }).1
              (ops.LoadPage space (k.badVAddr / PAGE_SIZE) frame
                { k with tlbSelection := (k.tlbSelection + 1) % UINT_MOD, sys := sys1 }).2).2) := by
  simp only [PageFaultHandler, hcur, hinvalid, hrp]
  rfl

/-- Every run of the handler ends in one `ReplaceTlbEntry` call; what comes
before it is nothing (valid page-table entry) or `ReplacePage` followed by one
loader (invalid entry). With collaborators that leave the TLB alone,
`ReplaceTlbEntry` finds the TLB as it was at the fault. -/
theorem PageFaultHandler_shape (pol : Policy) (ops : AddressSpaceOps) (rnd : Nat)
    (TLB_SIZE PAGE_SIZE : Nat) (k : Kernel) (space : SpaceId)
    (hcur : k.currentSpace = some space)
    (hdef : ((k.sys.spaces space).GetPageTableEntry (k.badVAddr / PAGE_SIZE)).valid = true ∨
      ∃ r, ReplacePage pol ops.SwapPage rnd (some space) k.sys = some r) :
    ∃ pre entry kpre,
      PageFaultHandler pol ops rnd TLB_SIZE PAGE_SIZE k =
        some (pre ++ (ReplaceTlbEntry ops TLB_SIZE (k.tlbSelection % TLB_SIZE) space
            entry kpre).1,
          (ReplaceTlbEntry ops TLB_SIZE (k.tlbSelection % TLB_SIZE) space entry kpre).2) ∧
      ((pre = [] ∧
          ((k.sys.spaces space).GetPageTableEntry (k.badVAddr / PAGE_SIZE)).valid = true) ∨
        (((k.sys.spaces space).GetPageTableEntry (k.badVAddr / PAGE_SIZE)).valid = false ∧
          ∃ frame, pre = [FaultCall.replacePage space frame,
              FaultCall.loadPage space (k.badVAddr / PAGE_SIZE) frame] ∨
            pre = [FaultCall.replacePage space frame,
              FaultCall.loadFromSwap space (k.badVAddr / PAGE_SIZE) frame])) ∧
      (ops.keepTlb → kpre.tlb = k.tlb) := by
  cases hv : ((k.sys.spaces space).GetPageTableEntry (k.badVAddr / PAGE_SIZE)).valid with
  | true =>
    refine ⟨[], (k.sys.spaces space).GetPageTableEntry (k.badVAddr / PAGE_SIZE),
      { k with tlbSelection := (k.tlbSelection + 1) % UINT_MOD }, ?_, Or.inl ⟨rfl, rfl⟩,
      fun _ => rfl⟩
    rw [PageFaultHandler_valid pol ops rnd TLB_SIZE PAGE_SIZE k space hcur hv]
    rfl
  | false =>
    rcases hdef with h | ⟨⟨frame, calls, sys1⟩, hrp⟩
    · rw [hv] at h
      exact absurd h (by decide)
    · have hrun := PageFaultHandler_invalid pol ops rnd TLB_SIZE PAGE_SIZE k space frame calls
        sys1 hcur hv hrp
      by_cases hsw : ((sys1.spaces space).GetPageTableEntry (k.badVAddr / PAGE_SIZE)).isInSwap
          = true
      · rw [if_pos hsw] at hrun
        exact ⟨[FaultCall.replacePage space frame,
            FaultCall.loadFromSwap space (k.badVAddr / PAGE_SIZE) frame],
          (ops.LoadFromSwap space (k.badVAddr / PAGE_SIZE) frame
            { k with tlbSelection := (k.tlbSelection + 1) % UINT_MOD, sys := sys1 }).1,
          (ops.LoadFromSwap space (k.badVAddr / PAGE_SIZE) frame
            { k with tlbSelection := (k.tlbSelection + 1) % UINT_MOD, sys := sys1 }).2,
          hrun, Or.inr ⟨rfl, frame, Or.inr rfl⟩,
          fun hk => hk.2.1 space (k.badVAddr / PAGE_SIZE) frame
            { k with tlbSelection := (k.tlbSelection + 1) % UINT_MOD, sys := sys1 }⟩
      · rw [if_neg hsw] at hrun
        exact ⟨[FaultCall.replacePage space frame,
            FaultCall.loadPage space (k.badVAddr / PAGE_SIZE) frame],
          (ops.LoadPage space (k.badVAddr / PAGE_SIZE) frame
            { k with tlbSelection := (k.tlbSelection + 1) % UINT_MOD, sys := sys1 }).1,
          (ops.LoadPage space (k.badVAddr / PAGE_SIZE) frame
            { k with tlbSelection := (k.tlbSelection + 1) % UINT_MOD, sys := sys1 }).2,
          hrun, Or.inr ⟨rfl, frame, Or.inl rfl⟩,
          fun hk => hk.1 space (k.badVAddr / PAGE_SIZE) frame
            { k with tlbSelection := (k.tlbSelection + 1) % UINT_MOD, sys := sys1 }⟩

theorem referenceOps_keepTlb : referenceOps.keepTlb :=
  ⟨fun _ _ _ _ => rfl, fun _ _ _ _ => rfl, fun _ _ _ => rfl⟩

/-! ## C11: which TLB slot is written -/

/-- C11 (TLB slot choice). On every fault the handler can serve (the running
thread has an address space, and the page-table entry is valid or
`ReplacePage` returns a frame), with `TLB_SIZE > 0` and collaborators that
leave the TLB alone: the handler stores one entry into one slot, every other
slot keeps its content, the store is the last thing it does; when some slot
below `TLB_SIZE` is invalid the slot is the lowest-indexed invalid one, and
when all are valid it is the round-robin cursor `tlbSelection` modulo
`TLB_SIZE`. -/
theorem PageFaultHandler_slot_choice (pol : Policy) (ops : AddressSpaceOps) (rnd : Nat)
    (TLB_SIZE PAGE_SIZE : Nat) (k : Kernel) (space : SpaceId)
    (hT : 0 < TLB_SIZE) (hkeep : ops.keepTlb)
    (hcur : k.currentSpace = some space)
    (hdef : ((k.sys.spaces space).GetPageTableEntry (k.badVAddr / PAGE_SIZE)).valid = true ∨
      ∃ r, ReplacePage pol ops.SwapPage rnd (some space) k.sys = some r) :
    ∃ trace k' slot entry,
      PageFaultHandler pol ops rnd TLB_SIZE PAGE_SIZE k = some (trace, k') ∧
      slot < TLB_SIZE ∧
      k'.tlb = store k.tlb slot entry ∧
      k'.tlb slot = entry ∧
      (∀ j, j ≠ slot → k'.tlb j = k.tlb j) ∧
      trace.filter FaultCall.isWrite = [FaultCall.writeTlb slot entry] ∧
      trace.getLast? = some (FaultCall.writeTlb slot entry) ∧
      ((∃ i, i < TLB_SIZE ∧ (k.tlb i).valid = false) →
        (k.tlb slot).valid = false ∧ ∀ j, j < slot → (k.tlb j).valid = true) ∧
      ((∀ i, i < TLB_SIZE → (k.tlb i).valid = true) → slot = k.tlbSelection % TLB_SIZE) := by
  obtain ⟨pre, entry, kpre, hrun, hpre, htlb⟩ :=
    PageFaultHandler_shape pol ops rnd TLB_SIZE PAGE_SIZE k space hcur hdef
  have hk := htlb hkeep
  have hprew : pre.filter FaultCall.isWrite = [] := by
    rcases hpre with ⟨h, -⟩ | ⟨-, f, h | h⟩ <;> subst h <;> rfl
  cases hscan : firstInvalidSlot kpre.tlb 0 TLB_SIZE with
  | some slot =>
    rw [ReplaceTlbEntry_invalid ops TLB_SIZE _ space entry kpre slot hscan] at hrun
    rw [hk] at hscan
    obtain ⟨-, h2, h3, h4⟩ := firstInvalidSlot_some k.tlb TLB_SIZE 0 slot hscan
    refine ⟨_, _, slot, entry, hrun, by omega, ?_, ?_, ?_, ?_, ?_, ?_, ?_⟩
    · show store kpre.tlb slot entry = store k.tlb slot entry
      rw [hk]
    · show store kpre.tlb slot entry slot = entry
      exact store_same _ _ _
    · intro j hj
      show store kpre.tlb slot entry j = k.tlb j
      rw [store_other _ _ _ _ hj, hk]
    · rw [List.filter_append, hprew]
      rfl
    · simp
    · intro _
      exact ⟨h3, fun j hj => h4 j (Nat.zero_le _) hj⟩
    · intro hfull
      rw [hfull slot (by omega)] at h3
      exact absurd h3 (by decide)
  | none =>
    rw [ReplaceTlbEntry_full ops TLB_SIZE _ space entry kpre hscan] at hrun
    have hs : (ops.SyncTlbEntry space (k.tlbSelection % TLB_SIZE) kpre).tlb = k.tlb := by
      rw [hkeep.2.2, hk]
    rw [hk] at hscan
    have hall := firstInvalidSlot_none k.tlb TLB_SIZE 0 hscan
    refine ⟨_, _, k.tlbSelection % TLB_SIZE, entry, hrun, Nat.mod_lt _ hT, ?_, ?_, ?_, ?_, ?_,
      ?_, ?_⟩
    · show store (ops.SyncTlbEntry space (k.tlbSelection % TLB_SIZE) kpre).tlb _ entry = _
      rw [hs]
    · show store (ops.SyncTlbEntry space (k.tlbSelection % TLB_SIZE) kpre).tlb _ entry _ = _
      exact store_same _ _ _
    · intro j hj
      show store (ops.SyncTlbEntry space (k.tlbSelection % TLB_SIZE) kpre).tlb _ entry j = _
      rw [store_other _ _ _ _ hj, hs]
    · rw [List.filter_append, hprew]
      rfl
    · simp
    · rintro ⟨i, hi, hinv⟩
      rw [hall i (Nat.zero_le _) (by omega)] at hinv
      exact absurd hinv (by decide)
    · intro _
      rfl

/-- Witness for C11: a full TLB of four slots with the cursor at 6; slot
`6 mod 4 = 2` is the one written. -/
theorem PageFaultHandler_slot_choice_witness :
    (∀ i, i < 4 → (fullTlbKernel.tlb i).valid = true) ∧
    fullTlbKernel.tlbSelection % 4 = 2 ∧
    ∃ trace k' slot entry,
      PageFaultHandler Policy.clock referenceOps 0 4 128 fullTlbKernel = some (trace, k') ∧
      slot < 4 ∧
      k'.tlb = store fullTlbKernel.tlb slot entry ∧
      k'.tlb slot = entry ∧
      (∀ j, j ≠ slot → k'.tlb j = fullTlbKernel.tlb j) ∧
      trace.filter FaultCall.isWrite = [FaultCall.writeTlb slot entry] ∧
      trace.getLast? = some (FaultCall.writeTlb slot entry) ∧
      ((∃ i, i < 4 ∧ (fullTlbKernel.tlb i).valid = false) →
        (fullTlbKernel.tlb slot).valid = false ∧
          ∀ j, j < slot → (fullTlbKernel.tlb j).valid = true) ∧
      ((∀ i, i < 4 → (fullTlbKernel.tlb i).valid = true) →
        slot = fullTlbKernel.tlbSelection % 4) :=
  ⟨fun _ _ => rfl, rfl,
    PageFaultHandler_slot_choice Policy.clock referenceOps 0 4 128 fullTlbKernel 0
      (by decide) referenceOps_keepTlb rfl (Or.inl rfl)⟩

/-! ## C12: a valid page-table entry is reused -/

theorem firstInvalidSlot_zero (tlb : Nat → TranslationEntry) (TLB_SIZE : Nat)
    (hT : 0 < TLB_SIZE) (h0 : (tlb 0).valid = false) :
    firstInvalidSlot tlb 0 TLB_SIZE = some 0 := by
  cases TLB_SIZE with
  | zero => omega
  | succ m => simp [firstInvalidSlot, h0]

/-- C12 (valid-entry reuse). On a fault on a page whose page-table entry is
valid, the handler returns having made no call to `ReplacePage`, `LoadPage`
or `LoadFromSwap`: all it does is store the page-table entry of the faulting
page into a TLB slot, after a `SyncTlbEntry` of that slot when the TLB is
full. When `TLB_SIZE > 0` and slot 0 is invalid (as in the refill scenario:
four slots, all invalid, fault on page 7), slot 0 receives the entry and no
other slot changes. -/
theorem PageFaultHandler_valid_reuse (pol : Policy) (ops : AddressSpaceOps) (rnd : Nat)
    (TLB_SIZE PAGE_SIZE : Nat) (k : Kernel) (space : SpaceId)
    (hcur : k.currentSpace = some space)
    (hvalid : ((k.sys.spaces space).GetPageTableEntry (k.badVAddr / PAGE_SIZE)).valid = true) :
    ∃ trace k' slot,
      PageFaultHandler pol ops rnd TLB_SIZE PAGE_SIZE k = some (trace, k') ∧
      (trace = [FaultCall.writeTlb slot
          ((k.sys.spaces space).GetPageTableEntry (k.badVAddr / PAGE_SIZE))] ∨
        trace = [FaultCall.syncTlbEntry space slot, FaultCall.writeTlb slot
          ((k.sys.spaces space).GetPageTableEntry (k.badVAddr / PAGE_SIZE))]) ∧
      (∀ c, c ∈ trace → c.isAcquire = false) ∧
      k'.tlb slot = (k.sys.spaces space).GetPageTableEntry (k.badVAddr / PAGE_SIZE) ∧
      (0 < TLB_SIZE → (k.tlb 0).valid = false →
        slot = 0 ∧
        trace = [FaultCall.writeTlb 0
          ((k.sys.spaces space).GetPageTableEntry (k.badVAddr / PAGE_SIZE))] ∧
        k'.tlb = store k.tlb 0
          ((k.sys.spaces space).GetPageTableEntry (k.badVAddr / PAGE_SIZE)) ∧
        k'.sys = k.sys) := by
  have hrun := PageFaultHandler_valid pol ops rnd TLB_SIZE PAGE_SIZE k space hcur hvalid
  cases hscan : firstInvalidSlot k.tlb 0 TLB_SIZE with
  | some slot =>
    rw [ReplaceTlbEntry_invalid ops TLB_SIZE _ space _
      { k with tlbSelection := (k.tlbSelection + 1) % UINT_MOD } slot hscan] at hrun
    refine ⟨_, _, slot, hrun, Or.inl rfl, ?_, store_same _ _ _, ?_⟩
    · intro c hc
      simp only [List.mem_singleton] at hc
      subst hc
      rfl
    · intro hT h0
      rw [firstInvalidSlot_zero k.tlb TLB_SIZE hT h0] at hscan
      have hs : slot = 0 := (Option.some.inj hscan).symm
      subst hs
      exact ⟨rfl, rfl, rfl, rfl⟩
  | none =>
    rw [ReplaceTlbEntry_full ops TLB_SIZE _ space _
      { k with tlbSelection := (k.tlbSelection + 1) % UINT_MOD } hscan] at hrun
    refine ⟨_, _, k.tlbSelection % TLB_SIZE, hrun, Or.inr rfl, ?_, store_same _ _ _, ?_⟩
    · intro c hc
      simp only [List.mem_cons, List.mem_singleton, List.not_mem_nil, or_false] at hc
      rcases hc with hc | hc <;> subst hc <;> rfl
    · intro hT h0
      rw [firstInvalidSlot_zero k.tlb TLB_SIZE hT h0] at hscan
      exact absurd hscan (by simp)

/-- Witness for C12: the refill scenario (four slots, all invalid, fault on
page 7 whose page-table entry is valid). -/
theorem PageFaultHandler_valid_reuse_witness :
    refillKernel.badVAddr / 128 = 7 ∧
    (∀ i, i < 4 → (refillKernel.tlb i).valid = false) ∧
    ∃ trace k' slot,
      PageFaultHandler Policy.clock referenceOps 0 4 128 refillKernel = some (trace, k') ∧
      (trace = [FaultCall.writeTlb slot
          ((refillKernel.sys.spaces 0).GetPageTableEntry (refillKernel.badVAddr / 128))] ∨
        trace = [FaultCall.syncTlbEntry 0 slot, FaultCall.writeTlb slot
          ((refillKernel.sys.spaces 0).GetPageTableEntry (refillKernel.badVAddr / 128))]) ∧
      (∀ c, c ∈ trace → c.isAcquire = false) ∧
      k'.tlb slot = (refillKernel.sys.spaces 0).GetPageTableEntry (refillKernel.badVAddr / 128) ∧
      (0 < 4 → (refillKernel.tlb 0).valid = false →
        slot = 0 ∧
        trace = [FaultCall.writeTlb 0
          ((refillKernel.sys.spaces 0).GetPageTableEntry (refillKernel.badVAddr / 128))] ∧
        k'.tlb = store refillKernel.tlb 0
          ((refillKernel.sys.spaces 0).GetPageTableEntry (refillKernel.badVAddr / 128)) ∧
        k'.sys = refillKernel.sys) :=
  ⟨by decide, fun _ _ => rfl,
    PageFaultHandler_valid_reuse Policy.clock referenceOps 0 4 128 refillKernel 0 rfl rfl⟩

/-! ## C13: an invalid page-table entry is filled -/

/-- What `ReplaceTlbEntry` does, whatever TLB it finds: it stores the entry
into one slot, after a `SyncTlbEntry` of that slot when no slot is invalid. -/
theorem ReplaceTlbEntry_stores (ops : AddressSpaceOps) (TLB_SIZE index : Nat) (space : SpaceId)
    (entry : TranslationEntry) (k : Kernel) :
    ∃ slot,
      ((ReplaceTlbEntry ops TLB_SIZE index space entry k).1 = [FaultCall.writeTlb slot entry] ∨
        (ReplaceTlbEntry ops TLB_SIZE index space entry k).1 =
          [FaultCall.syncTlbEntry space slot, FaultCall.writeTlb slot entry]) ∧
      (ReplaceTlbEntry ops TLB_SIZE index space entry k).2.tlb slot = entry := by
  cases hscan : firstInvalidSlot k.tlb 0 TLB_SIZE with
  | some slot =>
    rw [ReplaceTlbEntry_invalid ops TLB_SIZE index space entry k slot hscan]
    exact ⟨slot, Or.inl rfl, store_same _ _ _⟩
  | none =>
    rw [ReplaceTlbEntry_full ops TLB_SIZE index space entry k hscan]
    exact ⟨index, Or.inr rfl, store_same _ _ _⟩

/-- A frame taken from the free list leaves every address space as it
was. -/
theorem ReplacePage_free_spaces (pol : Policy) (swap : SwapPageFn) (rnd : Nat)
    (s : Option SpaceId) (st st' : Sys) (f : Nat)
    (h : ReplacePage pol swap rnd s st = some (f, [], st')) : st'.spaces = st.spaces := by
  unfold ReplacePage at h
  split at h
  · simp only [Option.some.injEq, Prod.mk.injEq] at h
    obtain ⟨-, -, h3⟩ := h
    subst h3
    rfl
  · split at h
    · simp at h
    · split at h
      · simp at h
      · simp only [] at h
        split at h
        · simp at h
        · simp at h

/-- C13 (invalid-entry fill). On a fault on a page whose page-table entry is
not valid, once `ReplacePage` (called for the faulting address space) has
returned frame `f`, the handler returns and what it did is, in order:
`ReplacePage` once, then one loader called with `(vpn, f)`, `LoadFromSwap`
when the page-table entry read after `ReplacePage` is marked in-swap and
`LoadPage` otherwise, then the store of the entry that loader returned into
a TLB slot (after a `SyncTlbEntry` of that slot when the TLB is full). When
the frame came from the free list the in-swap mark is the one the entry had
at the fault. -/
theorem PageFaultHandler_invalid_fill (pol : Policy) (ops : AddressSpaceOps) (rnd : Nat)
    (TLB_SIZE PAGE_SIZE : Nat) (k : Kernel) (space : SpaceId) (f : Nat)
    (calls : List Call) (sys1 : Sys)
    (hcur : k.currentSpace = some space)
    (hinvalid : ((k.sys.spaces space).GetPageTableEntry (k.badVAddr / PAGE_SIZE)).valid = false)
    (hrp : ReplacePage pol ops.SwapPage rnd (some space) k.sys = some (f, calls, sys1)) :
    (∃ k' slot rest,
      PageFaultHandler pol ops rnd TLB_SIZE PAGE_SIZE k =
        some (FaultCall.replacePage space f ::
          (if ((sys1.spaces space).GetPageTableEntry (k.badVAddr / PAGE_SIZE)).isInSwap = true
            then FaultCall.loadFromSwap space (k.badVAddr / PAGE_SIZE) f
            else FaultCall.loadPage space (k.badVAddr / PAGE_SIZE) f) :: rest, k') ∧
      (rest = [FaultCall.writeTlb slot
          (if ((sys1.spaces space).GetPageTableEntry (k.badVAddr / PAGE_SIZE)).isInSwap = true
            then (ops.LoadFromSwap space (k.badVAddr / PAGE_SIZE) f
              { k with tlbSelection := (k.tlbSelection + 1) % UINT_MOD, sys := sys1 }).1
            else (ops.LoadPage space (k.badVAddr / PAGE_SIZE) f
              { k with tlbSelection := (k.tlbSelection + 1) % UINT_MOD, sys := sys1 }).1)] ∨
        rest = [FaultCall.syncTlbEntry space slot, FaultCall.writeTlb slot
          (if ((sys1.spaces space).GetPageTableEntry (k.badVAddr / PAGE_SIZE)).isInSwap = true
            then (ops.LoadFromSwap space (k.badVAddr / PAGE_SIZE) f
              { k with tlbSelection := (k.tlbSelection + 1) % UINT_MOD, sys := sys1 }).1
            else (ops.LoadPage space (k.badVAddr / PAGE_SIZE) f
              { k with tlbSelection := (k.tlbSelection + 1) % UINT_MOD, sys := sys1 }).1)]) ∧
      k'.tlb slot =
        (if ((sys1.spaces space).GetPageTableEntry (k.badVAddr / PAGE_SIZE)).isInSwap = true
          then (ops.LoadFromSwap space (k.badVAddr / PAGE_SIZE) f
            { k with tlbSelection := (k.tlbSelection + 1) % UINT_MOD, sys := sys1 }).1
          else (ops.LoadPage space (k.badVAddr / PAGE_SIZE) f
            { k with tlbSelection := (k.tlbSelection + 1) % UINT_MOD, sys := sys1 }).1)) ∧
    (calls = [] →
      ((sys1.spaces space).GetPageTableEntry (k.badVAddr / PAGE_SIZE)).isInSwap =
        ((k.sys.spaces space).GetPageTableEntry (k.badVAddr / PAGE_SIZE)).isInSwap) := by
  have hrun := PageFaultHandler_invalid pol ops rnd TLB_SIZE PAGE_SIZE k space f calls sys1
    hcur hinvalid hrp
  constructor
  · by_cases hsw : ((sys1.spaces space).GetPageTableEntry (k.badVAddr / PAGE_SIZE)).isInSwap
        = true
    · simp only [hsw, if_true] at hrun ⊢
      obtain ⟨slot, hshape, htlb⟩ := ReplaceTlbEntry_stores ops TLB_SIZE
        (k.tlbSelection % TLB_SIZE) space
        (ops.LoadFromSwap space (k.badVAddr / PAGE_SIZE) f
          { k with tlbSelection := (k.tlbSelection + 1) % UINT_MOD, sys := sys1 }).1
        (ops.LoadFromSwap space (k.badVAddr / PAGE_SIZE) f
          { k with tlbSelection := (k.tlbSelection + 1) % UINT_MOD, sys := sys1 }).2
      exact ⟨_, slot, _, hrun, hshape, htlb⟩
    · simp only [hsw, if_false] at hrun ⊢
      obtain ⟨slot, hshape, htlb⟩ := ReplaceTlbEntry_stores ops TLB_SIZE
        (k.tlbSelection % TLB_SIZE) space
        (ops.LoadPage space (k.badVAddr / PAGE_SIZE) f
          { k with tlbSelection := (k.tlbSelection + 1) % UINT_MOD, sys := sys1 }).1
        (ops.LoadPage space (k.badVAddr / PAGE_SIZE) f
          { k with tlbSelection := (k.tlbSelection + 1) % UINT_MOD, sys := sys1 }).2
      exact ⟨_, slot, _, hrun, hshape, htlb⟩
  · intro hc
    subst hc
    rw [ReplacePage_free_spaces pol ops.SwapPage rnd (some space) k.sys sys1 f hrp]

/-- Witness for C13: the demand-load scenario (fault on page 3, entry neither
valid nor in swap, a free frame): one `ReplacePage`, one `LoadPage(3, 0)`, and
the returned entry goes into slot 0. -/
theorem PageFaultHandler_invalid_fill_witness :
    (PageFaultHandler Policy.clock referenceOps 0 4 128 demandKernel).map Prod.fst =
      some [FaultCall.replacePage 0 0, FaultCall.loadPage 0 3 0,
        FaultCall.writeTlb 0 (residentEntry 3 0 false false)] ∧
    ∃ sys1, ReplacePage Policy.clock referenceOps.SwapPage 0 (some 0) demandKernel.sys
        = some (0, [], sys1) ∧
      (∃ k' slot rest,
        PageFaultHandler Policy.clock referenceOps 0 4 128 demandKernel =
          some (FaultCall.replacePage 0 0 ::
            (if ((sys1.spaces 0).GetPageTableEntry (demandKernel.badVAddr / 128)).isInSwap = true
              then FaultCall.loadFromSwap 0 (demandKernel.badVAddr / 128) 0
              else FaultCall.loadPage 0 (demandKernel.badVAddr / 128) 0) :: rest, k') ∧
        (rest = [FaultCall.writeTlb slot
            (if ((sys1.spaces 0).GetPageTableEntry (demandKernel.badVAddr / 128)).isInSwap = true
              then (referenceOps.LoadFromSwap 0 (demandKernel.badVAddr / 128) 0
                { demandKernel with
                  tlbSelection := (demandKernel.tlbSelection + 1) % UINT_MOD, sys := sys1 }).1
              else (referenceOps.LoadPage 0 (demandKernel.badVAddr / 128) 0
                { demandKernel with
                  tlbSelection := (demandKernel.tlbSelection + 1) % UINT_MOD, sys := sys1 }).1)] ∨
          rest = [FaultCall.syncTlbEntry 0 slot, FaultCall.writeTlb slot
            (if ((sys1.spaces 0).GetPageTableEntry (demandKernel.badVAddr / 128)).isInSwap = true
              then (referenceOps.LoadFromSwap 0 (demandKernel.badVAddr / 128) 0
                { demandKernel with
                  tlbSelection := (demandKernel.tlbSelection + 1) % UINT_MOD, sys := sys1 }).1
              else (referenceOps.LoadPage 0 (demandKernel.badVAddr / 128) 0
                { demandKernel with
                  tlbSelection := (demandKernel.tlbSelection + 1) % UINT_MOD, sys := sys1 }).1)]) ∧
        k'.tlb slot =
          (if ((sys1.spaces 0).GetPageTableEntry (demandKernel.badVAddr / 128)).isInSwap = true
            then (referenceOps.LoadFromSwap 0 (demandKernel.badVAddr / 128) 0
              { demandKernel with
                tlbSelection := (demandKernel.tlbSelection + 1) % UINT_MOD, sys := sys1 }).1
            else (referenceOps.LoadPage 0 (demandKernel.badVAddr / 128) 0
              { demandKernel with
                tlbSelection := (demandKernel.tlbSelection + 1) % UINT_MOD, sys := sys1 }).1)) ∧
      (([] : List Call) = [] →
        ((sys1.spaces 0).GetPageTableEntry (demandKernel.badVAddr / 128)).isInSwap =
          ((demandKernel.sys.spaces 0).GetPageTableEntry (demandKernel.badVAddr / 128)).isInSwap) :=
  ⟨by decide, _, rfl,
    PageFaultHandler_invalid_fill Policy.clock referenceOps 0 4 128 demandKernel 0 0 [] _
      rfl rfl rfl⟩

/-! ## C14: a fault past the end of the page table -/

/-- C14, the code on an out-of-bounds fault. The handler never compares the
faulting page number with the page count of the address space: on a fault
whose page number is not below `numPages` it reads the page-table entry all
the same and, whenever it can serve the fault at all, returns normally with an
entry stored into a TLB slot as its last action; when the entry it read is
not valid it has called `ReplacePage` and so acquired a frame. No outcome of
the handler is an address error. -/
theorem PageFaultHandler_out_of_bounds (pol : Policy) (ops : AddressSpaceOps) (rnd : Nat)
    (TLB_SIZE PAGE_SIZE : Nat) (k : Kernel) (space : SpaceId)
    (hcur : k.currentSpace = some space)
    (hoob : (k.sys.spaces space).numPages ≤ k.badVAddr / PAGE_SIZE)
    (hdef : ((k.sys.spaces space).GetPageTableEntry (k.badVAddr / PAGE_SIZE)).valid = true ∨
      ∃ r, ReplacePage pol ops.SwapPage rnd (some space) k.sys = some r) :
    ∃ trace k' slot entry,
      PageFaultHandler pol ops rnd TLB_SIZE PAGE_SIZE k = some (trace, k') ∧
      trace.getLast? = some (FaultCall.writeTlb slot entry) ∧
      k'.tlb slot = entry ∧
      (((k.sys.spaces space).GetPageTableEntry (k.badVAddr / PAGE_SIZE)).valid = false →
        ∃ frame, FaultCall.replacePage space frame ∈ trace) := by
  have _ := hoob
  obtain ⟨pre, entry, kpre, hrun, hpre, -⟩ :=
    PageFaultHandler_shape pol ops rnd TLB_SIZE PAGE_SIZE k space hcur hdef
  obtain ⟨slot, hshape, htlb⟩ := ReplaceTlbEntry_stores ops TLB_SIZE
    (k.tlbSelection % TLB_SIZE) space entry kpre
  refine ⟨_, _, slot, entry, hrun, ?_, htlb, ?_⟩
  · rcases hshape with h | h <;> rw [h] <;> simp
  · intro hinv
    rcases hpre with ⟨-, hv⟩ | ⟨-, frame, h | h⟩
    · rw [hv] at hinv
      exact absurd hinv (by decide)
    · exact ⟨frame, by rw [h]; simp⟩
    · exact ⟨frame, by rw [h]; simp⟩

/-- Witness for C14: an address space of two pages faults on page 5; the
handler takes a frame, loads the page and fills TLB slot 0. -/
theorem PageFaultHandler_out_of_bounds_witness :
    (outOfBoundsKernel.sys.spaces 0).numPages = 2 ∧
    outOfBoundsKernel.badVAddr / 128 = 5 ∧
    (PageFaultHandler Policy.clock referenceOps 0 4 128 outOfBoundsKernel).map Prod.fst =
      some [FaultCall.replacePage 0 0, FaultCall.loadPage 0 5 0,
        FaultCall.writeTlb 0 (residentEntry 5 0 false false)] ∧
    ∃ trace k' slot entry,
      PageFaultHandler Policy.clock referenceOps 0 4 128 outOfBoundsKernel = some (trace, k') ∧
      trace.getLast? = some (FaultCall.writeTlb slot entry) ∧
      k'.tlb slot = entry ∧
      (((outOfBoundsKernel.sys.spaces 0).GetPageTableEntry
          (outOfBoundsKernel.badVAddr / 128)).valid = false →
        ∃ frame, FaultCall.replacePage 0 frame ∈ trace) :=
  ⟨rfl, by decide, by decide,
    PageFaultHandler_out_of_bounds Policy.clock referenceOps 0 4 128 outOfBoundsKernel 0 rfl
      (by decide) (Or.inr ⟨_, rfl⟩)⟩

/-! ## C16: `SyncTlbEntry` before a valid slot is overwritten -/

/-- C16 (sync before overwrite). On every fault the handler can serve, with
collaborators that leave the TLB alone: when every slot below `TLB_SIZE` holds a
valid entry the last two things the handler does are the call of the faulting
address space's `SyncTlbEntry` for slot `tlbSelection mod TLB_SIZE` and then
the store into that same slot, and nothing before them is a `SyncTlbEntry`
call or a store; when some slot is invalid the handler ends with a store into
an invalid slot and makes no `SyncTlbEntry` call at all. -/
theorem PageFaultHandler_sync_before_overwrite (pol : Policy) (ops : AddressSpaceOps)
    (rnd : Nat) (TLB_SIZE PAGE_SIZE : Nat) (k : Kernel) (space : SpaceId)
    (hkeep : ops.keepTlb)
    (hcur : k.currentSpace = some space)
    (hdef : ((k.sys.spaces space).GetPageTableEntry (k.badVAddr / PAGE_SIZE)).valid = true ∨
      ∃ r, ReplacePage pol ops.SwapPage rnd (some space) k.sys = some r) :
    ∃ trace k',
      PageFaultHandler pol ops rnd TLB_SIZE PAGE_SIZE k = some (trace, k') ∧
      ((∀ i, i < TLB_SIZE → (k.tlb i).valid = true) →
        ∃ pre entry,
          trace = pre ++ [FaultCall.syncTlbEntry space (k.tlbSelection % TLB_SIZE),
            FaultCall.writeTlb (k.tlbSelection % TLB_SIZE) entry] ∧
          ∀ c, c ∈ pre → c.isSync = false ∧ c.isWrite = false) ∧
      ((∃ i, i < TLB_SIZE ∧ (k.tlb i).valid = false) →
        ∃ pre slot entry,
          trace = pre ++ [FaultCall.writeTlb slot entry] ∧
          slot < TLB_SIZE ∧ (k.tlb slot).valid = false ∧
          ∀ c, c ∈ trace → c.isSync = false) := by
  obtain ⟨pre, entry, kpre, hrun, hpre, htlb⟩ :=
    PageFaultHandler_shape pol ops rnd TLB_SIZE PAGE_SIZE k space hcur hdef
  have hk := htlb hkeep
  have hprec : ∀ c, c ∈ pre → c.isSync = false ∧ c.isWrite = false := by
    intro c hc
    rcases hpre with ⟨h, -⟩ | ⟨-, f, h | h⟩ <;> subst h
    · simp at hc
    · simp only [List.mem_cons, List.mem_singleton, List.not_mem_nil, or_false] at hc
      rcases hc with hc | hc <;> subst hc <;> exact ⟨rfl, rfl⟩
    · simp only [List.mem_cons, List.mem_singleton, List.not_mem_nil, or_false] at hc
      rcases hc with hc | hc <;> subst hc <;> exact ⟨rfl, rfl⟩
  cases hscan : firstInvalidSlot kpre.tlb 0 TLB_SIZE with
  | some slot =>
    rw [ReplaceTlbEntry_invalid ops TLB_SIZE _ space entry kpre slot hscan] at hrun
    rw [hk] at hscan
    obtain ⟨-, h2, h3, -⟩ := firstInvalidSlot_some k.tlb TLB_SIZE 0 slot hscan
    refine ⟨_, _, hrun, ?_, ?_⟩
    · intro hfull
      rw [hfull slot (by omega)] at h3
      exact absurd h3 (by decide)
    · intro _
      refine ⟨pre, slot, entry, rfl, by omega, h3, ?_⟩
      intro c hc
      rw [List.mem_append] at hc
      rcases hc with hc | hc
      · exact (hprec c hc).1
      · simp only [List.mem_singleton] at hc
        subst hc
        rfl
  | none =>
    rw [ReplaceTlbEntry_full ops TLB_SIZE _ space entry kpre hscan] at hrun
    rw [hk] at hscan
    have hall := firstInvalidSlot_none k.tlb TLB_SIZE 0 hscan
    refine ⟨_, _, hrun, ?_, ?_⟩
    · intro _
      exact ⟨pre, entry, rfl, hprec⟩
    · rintro ⟨i, hi, hinv⟩
      rw [hall i (Nat.zero_le _) (by omega)] at hinv
      exact absurd hinv (by decide)

/-- Witness for C16: the full TLB with the cursor at 6; `SyncTlbEntry(2)`
comes right before the store into slot 2. -/
theorem PageFaultHandler_sync_before_overwrite_witness :
    (PageFaultHandler Policy.clock referenceOps 0 4 128 fullTlbKernel).map Prod.fst =
      some [FaultCall.syncTlbEntry 0 2, FaultCall.writeTlb 2 (residentEntry 5 5 false false)] ∧
    ∃ trace k',
      PageFaultHandler Policy.clock referenceOps 0 4 128 fullTlbKernel = some (trace, k') ∧
      ((∀ i, i < 4 → (fullTlbKernel.tlb i).valid = true) →
        ∃ pre entry,
          trace = pre ++ [FaultCall.syncTlbEntry 0 (fullTlbKernel.tlbSelection % 4),
            FaultCall.writeTlb (fullTlbKernel.tlbSelection % 4) entry] ∧
          ∀ c, c ∈ pre → c.isSync = false ∧ c.isWrite = false) ∧
      ((∃ i, i < 4 ∧ (fullTlbKernel.tlb i).valid = false) →
        ∃ pre slot entry,
          trace = pre ++ [FaultCall.writeTlb slot entry] ∧
          slot < 4 ∧ (fullTlbKernel.tlb slot).valid = false ∧
          ∀ c, c ∈ trace → c.isSync = false) :=
  ⟨by decide,
    PageFaultHandler_sync_before_overwrite Policy.clock referenceOps 0 4 128 fullTlbKernel 0
      referenceOps_keepTlb rfl (Or.inl rfl)⟩

/-! ## C15: the clock policy always finds a victim -/

theorem clockSweepAdvances_le (select : TranslationEntry → Bool) (sc : Bool) :
    ∀ k st, clockSweepAdvances select sc k st ≤ k := by
  intro k
  induction k with
  | zero => intro st; simp [clockSweepAdvances]
  | succ k ih =>
    intro st
    simp only [clockSweepAdvances]
    split
    · omega
    · split
      · omega
      · split
        · rw [Nat.add_comm]
          exact Nat.succ_le_succ (ih _)
        · rw [Nat.add_comm]
          exact Nat.succ_le_succ (ih _)

theorem clockSweepAdvances_plain_step (select : TranslationEntry → Bool) (k : Nat) (st : Sys) :
    clockSweepAdvances select false (k + 1) st =
      match frameEntry st (nextCursor st.coreMap.numPhysPages st.coreMap.victimIndex) with
      | none => 1
      | some e =>
        if select e then 1
        else 1 + clockSweepAdvances select false k
          (st.withCursor (nextCursor st.coreMap.numPhysPages st.coreMap.victimIndex)) := by
  simp only [clockSweepAdvances, frameEntry, nextCursor, Sys.withCursor]
  cases h : st.coreMap.coreMapAdd ((st.coreMap.victimIndex + 1) % UINT_MOD % st.coreMap.numPhysPages) with
  | none => rfl
  | some space => simp

/-- Every frame below `numPhysPages` is visited by a full sweep: frame `i` is
the one visited at step `(i + (n - start)) mod n`. -/
theorem sweep_reaches (n start i : Nat) (hs : start < n) (hi : i < n) :
    (start + (i + (n - start)) % n) % n = i := by
  rw [Nat.add_mod, Nat.mod_mod, ← Nat.add_mod]
  have : start + (i + (n - start)) = i + n := by omega
  rw [this, Nat.add_mod_right, Nat.mod_eq_of_lt hi]

/-- A sweep that clears no use bit, over a table whose frames are all owned,
either returns the first frame in sweep order whose entry it selects, or
selects no frame at all, runs out, and leaves only the cursor changed. -/
theorem clockSweep_plain_cases (select : TranslationEntry → Bool) (st : Sys)
    (hn : 0 < st.coreMap.numPhysPages) (hlt : st.coreMap.numPhysPages < UINT_MOD)
    (howned : ∀ i, i < st.coreMap.numPhysPages → ∃ space, st.coreMap.coreMapAdd i = some space) :
    (∃ v, clockSweep select false st.coreMap.numPhysPages st = (some v, st.withCursor v)) ∨
    (clockSweep select false st.coreMap.numPhysPages st =
        (none, st.withCursor ((nextCursor st.coreMap.numPhysPages)^[st.coreMap.numPhysPages]
          st.coreMap.victimIndex)) ∧
      ∀ i, i < st.coreMap.numPhysPages →
        ∃ e, frameEntry st i = some e ∧ select e = false) := by
  have hs0 : nextCursor st.coreMap.numPhysPages st.coreMap.victimIndex
      < st.coreMap.numPhysPages := Nat.mod_lt _ hn
  have hentry : ∀ i, i < st.coreMap.numPhysPages → ∃ e, frameEntry st i = some e := by
    intro i hi
    obtain ⟨space, hsp⟩ := howned i hi
    exact ⟨(st.spaces space).GetPageTableEntry ((st.spaces space).GetPhysicalPageIndex i),
      by simp only [frameEntry, hsp]⟩
  by_cases hex : ∃ j, j < st.coreMap.numPhysPages ∧ ∀ e, frameEntry st
      ((nextCursor st.coreMap.numPhysPages st.coreMap.victimIndex + j)
        % st.coreMap.numPhysPages) = some e → select e = true
  · left
    classical
    obtain ⟨hj, hjc⟩ := Nat.find_spec hex
    have hmin : ∀ l, l < Nat.find hex → ∃ e, frameEntry st
        ((nextCursor st.coreMap.numPhysPages st.coreMap.victimIndex + l)
          % st.coreMap.numPhysPages) = some e ∧ select e = false := by
      intro l hl
      have hnot := Nat.find_min hex hl
      obtain ⟨e, he⟩ := hentry _ (Nat.mod_lt
        (nextCursor st.coreMap.numPhysPages st.coreMap.victimIndex + l) hn)
      refine ⟨e, he, ?_⟩
      cases hsel : select e with
      | false => rfl
      | true =>
        exfalso
        apply hnot
        refine ⟨by omega, ?_⟩
        intro e2 he2
        have : e2 = e := Option.some.inj (he2.symm.trans he)
        rw [this, hsel]
    have hsweep := clockSweep_plain_some select st.coreMap.numPhysPages st (Nat.find hex) hj
      (by
        intro l hl
        rw [nextCursor_iterate _ _ hn hlt]
        exact hmin l hl)
      (by
        intro e he
        rw [nextCursor_iterate _ _ hn hlt] at he
        exact hjc e he)
    exact ⟨_, hsweep⟩
  · right
    have hnone : ∀ i, i < st.coreMap.numPhysPages →
        ∃ e, frameEntry st i = some e ∧ select e = false := by
      intro i hi
      obtain ⟨e, he⟩ := hentry i hi
      refine ⟨e, he, ?_⟩
      cases hsel : select e with
      | false => rfl
      | true =>
        exfalso
        apply hex
        refine ⟨(i + (st.coreMap.numPhysPages
          - nextCursor st.coreMap.numPhysPages st.coreMap.victimIndex))
          % st.coreMap.numPhysPages, Nat.mod_lt _ hn, ?_⟩
        rw [sweep_reaches _ _ _ hs0 hi]
        intro e2 he2
        have : e2 = e := Option.some.inj (he2.symm.trans he)
        rw [this, hsel]
    refine ⟨?_, hnone⟩
    apply clockSweep_plain_none
    intro l _
    rw [nextCursor_iterate _ _ hn hlt]
    exact hnone _ (Nat.mod_lt _ hn)

/-- Pass 4 over a table whose frames are all owned and all dirty returns the
first frame it visits, after one cursor advance. -/
theorem clockPass4_first (st : Sys) (hn : 0 < st.coreMap.numPhysPages)
    (hdirty : ∀ i, i < st.coreMap.numPhysPages →
      ∃ e, frameEntry st i = some e ∧ e.dirty = true) :
    clockPass4 st =
      (some (nextCursor st.coreMap.numPhysPages st.coreMap.victimIndex),
        st.withCursor (nextCursor st.coreMap.numPhysPages st.coreMap.victimIndex)) ∧
    clockSweepAdvances (fun e => e.dirty) false st.coreMap.numPhysPages st = 1 := by
  obtain ⟨e, he, hd⟩ := hdirty (nextCursor st.coreMap.numPhysPages st.coreMap.victimIndex)
    (Nat.mod_lt _ hn)
  obtain ⟨m, hm⟩ : ∃ m, st.coreMap.numPhysPages = m + 1 := ⟨st.coreMap.numPhysPages - 1, by omega⟩
  constructor
  · unfold clockPass4
    rw [show clockSweep (fun e => e.dirty) false st.coreMap.numPhysPages st
        = clockSweep (fun e => e.dirty) false (m + 1) st by rw [hm]]
    rw [clockSweep_plain_step, he]
    simp only [hd, if_true]
  · rw [show clockSweepAdvances (fun e => e.dirty) false st.coreMap.numPhysPages st
        = clockSweepAdvances (fun e => e.dirty) false (m + 1) st by rw [hm]]
    rw [clockSweepAdvances_plain_step, he]
    simp only [hd, if_true]

/-- C15 (clock fallback and termination). Under the clock policy with
`0 < numPhysPages < 2^32` and every frame owned, for every cursor value and
all use and dirty bits: whenever passes 1 to 3 select no frame, pass 4 returns
the first frame it visits, after a single cursor advance; `GetVictim` returns
an index below `numPhysPages`; the cursor advances at most
`3 * numPhysPages + 1` times in the call; and the `return` taken is one of the
four passes, never the fall-through after pass 4. -/
theorem GetVictim_clock_terminates (rnd : Nat) (st : Sys)
    (hn : 0 < st.coreMap.numPhysPages) (hlt : st.coreMap.numPhysPages < 2 ^ 32)
    (howned : ∀ i, i < st.coreMap.numPhysPages → ∃ space, st.coreMap.coreMapAdd i = some space) :
    (∀ st1 st2 st3, clockPass1 st = (none, st1) → clockPass2 st1 = (none, st2) →
      clockPass3 st2 = (none, st3) →
      clockPass4 st3 =
        (some ((st3.coreMap.victimIndex + 1) % 2 ^ 32 % st3.coreMap.numPhysPages),
          { st3 with coreMap := { st3.coreMap with victimIndex :=
            (st3.coreMap.victimIndex + 1) % 2 ^ 32 % st3.coreMap.numPhysPages } }) ∧
      clockSweepAdvances (fun e => e.dirty) false st3.coreMap.numPhysPages st3 = 1) ∧
    (∃ v st', GetVictim Policy.clock rnd st = some (v, st') ∧ v < st.coreMap.numPhysPages) ∧
    (GetVictimClockRun st).1 ≤ 3 * st.coreMap.numPhysPages + 1 ∧
    (GetVictimClockRun st).2 ≤ 4 := by
  have hA : ∀ st1 st2 st3, clockPass1 st = (none, st1) → clockPass2 st1 = (none, st2) →
      clockPass3 st2 = (none, st3) →
      st3.coreMap.numPhysPages = st.coreMap.numPhysPages ∧
      clockPass4 st3 =
        (some (nextCursor st3.coreMap.numPhysPages st3.coreMap.victimIndex),
          st3.withCursor (nextCursor st3.coreMap.numPhysPages st3.coreMap.victimIndex)) ∧
      clockSweepAdvances (fun e => e.dirty) false st3.coreMap.numPhysPages st3 = 1 := by
    intro st1 st2 st3 h1 h2 h3
    obtain ⟨a1, -, -⟩ := clockPass_spec _ _ st hn _ _ h1
    have hn1 : 0 < st1.coreMap.numPhysPages := by rw [a1.2.1]; exact hn
    obtain ⟨a2, -, -⟩ := clockPass_spec _ _ st1 hn1 _ _ h2
    have hn2 : 0 < st2.coreMap.numPhysPages := by rw [a2.2.1]; exact hn1
    have hlt2 : st2.coreMap.numPhysPages < UINT_MOD := by
      rw [a2.2.1, a1.2.1]; exact hlt
    have howned2 : ∀ i, i < st2.coreMap.numPhysPages →
        ∃ space, st2.coreMap.coreMapAdd i = some space := by
      intro i hi
      rw [a2.2.1, a1.2.1] at hi
      rw [a2.1, a1.1]
      exact howned i hi
    rcases clockSweep_plain_cases (fun e => !e.dirty) st2 hn2 hlt2 howned2 with ⟨v, hv⟩ | ⟨hnone, hall⟩
    · unfold clockPass3 at h3
      rw [hv] at h3
      simp at h3
    · unfold clockPass3 at h3
      rw [hnone] at h3
      have hst3 : st3 = st2.withCursor ((nextCursor st2.coreMap.numPhysPages)^[st2.coreMap.numPhysPages]
          st2.coreMap.victimIndex) := by
        simp only [Prod.mk.injEq, true_and] at h3
        exact h3.symm
      have hn3 : st3.coreMap.numPhysPages = st2.coreMap.numPhysPages := by rw [hst3]; rfl
      have hdirty : ∀ i, i < st3.coreMap.numPhysPages →
          ∃ e, frameEntry st3 i = some e ∧ e.dirty = true := by
        intro i hi
        rw [hn3] at hi
        obtain ⟨e, he, hsel⟩ := hall i hi
        refine ⟨e, by rw [hst3]; exact he, ?_⟩
        simpa using hsel
      have h4 := clockPass4_first st3 (by rw [hn3]; exact hn2) hdirty
      exact ⟨by rw [hn3, a2.2.1, a1.2.1], h4⟩
  refine ⟨fun st1 st2 st3 h1 h2 h3 => (hA st1 st2 st3 h1 h2 h3).2, ?_, ?_⟩
  · exact ⟨(GetVictimClock st).1, (GetVictimClock st).2, rfl, (GetVictimClock_spec st hn).2.1⟩
  · have b1 := clockSweepAdvances_le (fun e => !e.use && !e.dirty) false
      st.coreMap.numPhysPages st
    unfold GetVictimClockRun
    split
    · exact ⟨by simp only; omega, by simp⟩
    · rename_i st1 h1
      obtain ⟨a1, -, -⟩ := clockPass_spec _ _ st hn _ _ h1
      have b2 := clockSweepAdvances_le (fun e => !e.use && e.dirty) true
        st1.coreMap.numPhysPages st1
      rw [a1.2.1] at b2
      split
      · exact ⟨by simp only; rw [a1.2.1]; omega, by simp⟩
      · rename_i st2 h2
        obtain ⟨a2, -, -⟩ := clockPass_spec _ _ st1 (by rw [a1.2.1]; exact hn) _ _ h2
        have b3 := clockSweepAdvances_le (fun e => !e.dirty) false
          st2.coreMap.numPhysPages st2
        rw [a2.2.1, a1.2.1] at b3
        split
        · exact ⟨by simp only; rw [a2.2.1, a1.2.1]; omega, by simp⟩
        · rename_i st3 h3
          obtain ⟨hn3, h4, b4⟩ := hA st1 st2 st3 h1 h2 h3
          split
          · refine ⟨?_, by simp⟩
            simp only
            rw [b4, a2.2.1, a1.2.1]
            omega
          · rename_i st4 h5
            rw [h4] at h5
            simp at h5

/-- Witness for C15: four owned frames, all pages used and dirty, cursor 2:
passes 1 to 3 find nothing, pass 4 returns the first frame it visits (frame
3) and the cursor has advanced `3 * 4 + 1 = 13` times. -/
theorem GetVictim_clock_terminates_witness :
    GetVictimClockRun allBusyFour = (13, 4) ∧
    (GetVictim Policy.clock 0 allBusyFour).map Prod.fst = some 3 ∧
    (∀ st1 st2 st3, clockPass1 allBusyFour = (none, st1) → clockPass2 st1 = (none, st2) →
      clockPass3 st2 = (none, st3) →
      clockPass4 st3 =
        (some ((st3.coreMap.victimIndex + 1) % 2 ^ 32 % st3.coreMap.numPhysPages),
          { st3 with coreMap := { st3.coreMap with victimIndex :=
            (st3.coreMap.victimIndex + 1) % 2 ^ 32 % st3.coreMap.numPhysPages } }) ∧
      clockSweepAdvances (fun e => e.dirty) false st3.coreMap.numPhysPages st3 = 1) ∧
    (∃ v st', GetVictim Policy.clock 0 allBusyFour = some (v, st') ∧
      v < allBusyFour.coreMap.numPhysPages) ∧
    (GetVictimClockRun allBusyFour).1 ≤ 3 * allBusyFour.coreMap.numPhysPages + 1 ∧
    (GetVictimClockRun allBusyFour).2 ≤ 4 :=
  ⟨by decide, by decide,
    GetVictim_clock_terminates 0 allBusyFour (by decide) (by decide) (fun _ _ => ⟨0, rfl⟩)⟩

end NachOS
